import Mathlib

/-!
Verification of the siwe-ex native library (`src/native/siwe_native/src/lib.rs`):
an Elixir-facing wrapper around the EIP-4361 ("Sign-In with Ethereum") message
model and verification engine.

Strings from the Rust side are modelled as `List Char`; byte vectors as
`List Nat` with values below 256.  The wrapper code (struct `Parsed`,
`VerifyOptions`, `to_eip4361_message`, `to_timestamp`, `from_timestamp`,
`message_to_parsed`, `parse`, `to_str`, `verify`, `parse_if_valid`) is
embedded from the source.  The `siwe` crate that the wrapper delegates to
(the EIP-4361 grammar, `Message::from_str`, `Message::to_string`,
`Message::verify`, `valid_now`) and the small external parsers it uses
(authority, URI, RFC-3339, URL, hex) are not part of this repository; those
definitions are modelled from the spec and are marked as such.
-/

set_option maxRecDepth 100000

abbrev Chars := List Char

deriving instance DecidableEq for Except

/-- A line of canonical text may not contain the newline delimiter. -/
def lineOk (l : Chars) : Bool := l.all fun c => !(c = '\n')

/-- Model of Rust `str::split('\n')`: splitting an empty string yields one
empty piece, and every newline starts a new piece. -/
def splitLines : Chars → List Chars
  | [] => [[]]
  | c :: r =>
    if c = '\n' then [] :: splitLines r
    else
      match splitLines r with
      | [] => [[c]]
      | h :: t => (c :: h) :: t

/-- Joining lines with a single newline between them and no trailing newline,
as the `Display` rendering of a message produces. -/
def joinLines : List Chars → Chars
  | [] => []
  | [l] => l
  | l :: ls => l ++ '\n' :: joinLines ls

/-- Model of Rust `str::strip_prefix`, keyed by an expected leading tag. -/
def tagged? (tag l : Chars) : Option Chars :=
  if l.take tag.length = tag then some (l.drop tag.length) else none

/-- Model of Rust `str::strip_suffix`. -/
def stripSfx? (l suf : Chars) : Option Chars :=
  (tagged? suf.reverse l.reverse).map List.reverse

/-- Consume a tagged line if the next line carries the tag, else leave the
line stream unchanged (used for the optional message fields). -/
def optTagged (tag : Chars) : List Chars → Option Chars × List Chars
  | [] => (none, [])
  | l :: rest =>
    match tagged? tag l with
    | some v => (some v, rest)
    | none => (none, l :: rest)

/-- Value of a single hexadecimal digit, either case. -/
def hexVal? (c : Char) : Option Nat :=
  if 48 ≤ c.toNat ∧ c.toNat ≤ 57 then some (c.toNat - 48)
  else if 97 ≤ c.toNat ∧ c.toNat ≤ 102 then some (c.toNat - 87)
  else if 65 ≤ c.toNat ∧ c.toNat ≤ 70 then some (c.toNat - 55)
  else none

def isHexDigit (c : Char) : Bool := (hexVal? c).isSome

/-- Error kinds of the hex decoder (`const-hex`, the crate behind
`alloy::primitives::hex`).  Modelled from the spec: signatures are hex text
decoded to raw bytes, rejecting odd length, non-hex digits, and (for
fixed-size targets) a wrong byte count. -/
inductive HexErr
  | oddLength
  | invalidChar
  | badLength
deriving DecidableEq, Fintype

/-- Decode pairs of hex digits into bytes. -/
def hexPairsToBytesE : Chars → Except HexErr (List Nat)
  | [] => .ok []
  | [_] => .error .oddLength
  | c1 :: c2 :: rest =>
    match hexVal? c1, hexVal? c2 with
    | some h, some lo =>
      match hexPairsToBytesE rest with
      | .ok bs => .ok ((16 * h + lo) :: bs)
      | .error e => .error e
    | _, _ => .error .invalidChar

def hexPairsToBytes (l : Chars) : Option (List Nat) := (hexPairsToBytesE l).toOption

/-- Modelled from the spec: the hex decoder accepts both prefixed and
unprefixed input, so a leading `0x`/`0X` is removed before decoding. -/
def stripHexPfx : Chars → Chars
  | '0' :: 'x' :: r => r
  | '0' :: 'X' :: r => r
  | l => l

/-- Model of `hex::decode`: optional `0x` prefix, any even number of digits. -/
def hexDecode (l : Chars) : Option (List Nat) := hexPairsToBytes (stripHexPfx l)

/-- Model of `<[u8; 20]>::from_hex`: decode and require exactly 20 bytes. -/
def decode20 (l : Chars) : Option (List Nat) :=
  match hexPairsToBytes (stripHexPfx l) with
  | some bs => if bs.length = 20 then some bs else none
  | none => none

/-- Model of `<[u8; 65]>::from_hex`: decode and require exactly 65 bytes,
keeping the error kind for the failure message. -/
def decode65 (l : Chars) : Except HexErr (List Nat) :=
  match hexPairsToBytesE (stripHexPfx l) with
  | .ok bs => if bs.length = 65 then .ok bs else .error .badLength
  | .error e => .error e

def digitVal (c : Char) : Nat := c.toNat - '0'.toNat

/-- Decimal rendering with explicit fuel (the fuel is an upper bound on the
number, so it never runs out). -/
def natToCharsAux : Nat → Nat → Chars
  | 0, n => [Char.ofNat (48 + n % 10)]
  | fuel + 1, n =>
    if n < 10 then [Char.ofNat (48 + n)]
    else natToCharsAux fuel (n / 10) ++ [Char.ofNat (48 + n % 10)]

/-- Decimal rendering of a natural number (for the `Chain ID` line). -/
def natToChars (n : Nat) : Chars := natToCharsAux n n

def charsToNatAux : Nat → Chars → Option Nat
  | acc, [] => some acc
  | acc, c :: cs => if c.isDigit then charsToNatAux (acc * 10 + digitVal c) cs else none

/-- Decimal parsing of a natural number (for the `Chain ID` line). -/
def charsToNat? (l : Chars) : Option Nat :=
  if l.isEmpty then none else charsToNatAux 0 l

/-! ### Keccak-256 and the EIP-55 checksummed address rendering

`message_to_parsed` renders the address with `Address::to_checksum(None)`
(EIP-55): hash the lowercase hex digits of the address with Keccak-256 and
uppercase the i-th hex letter exactly when the i-th nibble of the hash is at
least 8. -/

def rotl64 (x n : Nat) : Nat :=
  ((x <<< (n % 64)) % 2 ^ 64) ||| (x >>> (64 - n % 64))

def not64 (x : Nat) : Nat := x ^^^ (2 ^ 64 - 1)

def getL (st : List Nat) (i : Nat) : Nat := st.getD i 0

def keccakTheta (st : List Nat) : List Nat :=
  let c := (List.range 5).map fun x =>
    getL st x ^^^ getL st (x + 5) ^^^ getL st (x + 10) ^^^ getL st (x + 15) ^^^ getL st (x + 20)
  let d := (List.range 5).map fun x => getL c ((x + 4) % 5) ^^^ rotl64 (getL c ((x + 1) % 5)) 1
  (List.range 25).map fun i => getL st i ^^^ getL d (i % 5)

/-- Destination lane to (source lane, rotation) table of the combined
rho-pi step, for lanes indexed x + 5 * y. -/
def rhoPiTable : List (Nat × Nat) :=
  [(0, 0), (6, 44), (12, 43), (18, 21), (24, 14),
   (3, 28), (9, 20), (10, 3), (16, 45), (22, 61),
   (1, 1), (7, 6), (13, 25), (19, 8), (20, 18),
   (4, 27), (5, 36), (11, 10), (17, 15), (23, 56),
   (2, 62), (8, 55), (14, 39), (15, 41), (21, 2)]

def keccakRhoPi (st : List Nat) : List Nat :=
  rhoPiTable.map fun p => rotl64 (getL st p.1) p.2

def keccakChi (st : List Nat) : List Nat :=
  (List.range 25).map fun i =>
    let row := 5 * (i / 5)
    getL st i ^^^ (not64 (getL st (row + (i + 1) % 5)) &&& getL st (row + (i + 2) % 5))

def keccakRC : List Nat :=
  [0x0000000000000001, 0x0000000000008082, 0x800000000000808a, 0x8000000080008000,
   0x000000000000808b, 0x0000000080000001, 0x8000000080008081, 0x8000000000008009,
   0x000000000000008a, 0x0000000000000088, 0x0000000080008009, 0x000000008000000a,
   0x000000008000808b, 0x800000000000008b, 0x8000000000008089, 0x8000000000008003,
   0x8000000000008002, 0x8000000000000080, 0x000000000000800a, 0x800000008000000a,
   0x8000000080008081, 0x8000000000008080, 0x0000000080000001, 0x8000000080008008]

def keccakIota (st : List Nat) (rc : Nat) : List Nat :=
  match st with
  | [] => []
  | h :: t => (h ^^^ rc) :: t

def keccakRound (st : List Nat) (rc : Nat) : List Nat :=
  keccakIota (keccakChi (keccakRhoPi (keccakTheta st))) rc

def keccakF (st : List Nat) : List Nat :=
  keccakRC.foldl keccakRound st

def bytesToLane : List Nat → Nat
  | [] => 0
  | b :: rest => b % 256 + 256 * bytesToLane rest

def absorbBlock (st : List Nat) (block : List Nat) : List Nat :=
  let lanes := (List.range 17).map fun i => bytesToLane ((block.drop (8 * i)).take 8)
  keccakF ((List.range 25).map fun i => getL st i ^^^ (if i < 17 then getL lanes i else 0))

/-- Multi-rate padding of keccak (domain byte 0x01). -/
def keccakPad (len : Nat) : List Nat :=
  let r := 136 - len % 136
  if r = 1 then [0x81] else 0x01 :: (List.replicate (r - 2) 0 ++ [0x80])

def absorbBlocks (fuel : Nat) (st : List Nat) (l : List Nat) : List Nat :=
  match fuel, l with
  | _, [] => st
  | 0, _ => st
  | fuel + 1, x :: xs =>
    absorbBlocks fuel (absorbBlock st ((x :: xs).take 136)) ((x :: xs).drop 136)

def laneToBytes (x : Nat) : List Nat :=
  (List.range 8).map fun i => (x >>> (8 * i)) % 256

def keccak256 (msg : List Nat) : List Nat :=
  let padded := msg ++ keccakPad msg.length
  let st := absorbBlocks padded.length (List.replicate 25 0) padded
  ((st.take 4).map laneToBytes).flatten

/-- Lowercase hex digit for a nibble. -/
def hexCharL (n : Nat) : Char :=
  if n < 10 then Char.ofNat (48 + n) else Char.ofNat (87 + n)

/-- Lowercase hex rendering of a byte string. -/
def bytesToLowerHex : List Nat → Chars
  | [] => []
  | b :: rest => hexCharL (b / 16 % 16) :: hexCharL (b % 16) :: bytesToLowerHex rest

def isLowerHexLetter (c : Char) : Bool :=
  c = 'a' || c = 'b' || c = 'c' || c = 'd' || c = 'e' || c = 'f'

/-- The i-th nibble of a byte string (high nibble first). -/
def nibbleAt (bs : List Nat) (i : Nat) : Nat :=
  if i % 2 = 0 then getL bs (i / 2) / 16 % 16 else getL bs (i / 2) % 16

/-- EIP-55 casing of a single lowercase hex character. -/
def checksumChar (hash : List Nat) (i : Nat) (c : Char) : Char :=
  if isLowerHexLetter c then (if 8 ≤ nibbleAt hash i then c.toUpper else c) else c

def checksumMap (hash : List Nat) : Nat → Chars → Chars
  | _, [] => []
  | i, c :: cs => checksumChar hash i c :: checksumMap hash (i + 1) cs

/-- Model of `Address::to_checksum(None)`: `0x` followed by the EIP-55
mixed-case hex digits of the 20 address bytes. -/
def toChecksumChars (addr : List Nat) : Chars :=
  let lower := bytesToLowerHex addr
  '0' :: 'x' :: checksumMap (keccak256 (lower.map Char.toNat)) 0 lower

/-! ### Grammar primitives used at the message boundaries

Modelled from the spec: the spec does not define a general-purpose URI or
authority grammar engine, it only requires that `domain` is an
authority-syntax string (`host[:port]`), that `uri` and resources are
standards-conformant URI strings, and that timestamps are RFC-3339 text. -/

def isHostChar (c : Char) : Bool := c.isAlphanum || c = '.' || c = '-'

/-- Modelled from the spec: `domain` is an authority-syntax string,
`host[:port]`. -/
def isAuthority (l : Chars) : Bool :=
  let host := l.takeWhile (fun c => !(c = ':'))
  (!host.isEmpty) && host.all isHostChar &&
    (match l.dropWhile (fun c => !(c = ':')) with
     | [] => true
     | _ :: port => (!port.isEmpty) && port.all Char.isDigit)

def isSchemeChar (c : Char) : Bool := c.isAlphanum || c = '+' || c = '-' || c = '.'

def isUriTailChar (c : Char) : Bool :=
  c.isAlphanum || "-._~:/?#[]@!$&()*+,;=%".data.contains c

/-- Modelled from the spec: an absolute URI, `scheme:` followed by URI
characters. -/
def isUri (l : Chars) : Bool :=
  let scheme := l.takeWhile (fun c => !(c = ':'))
  match l.dropWhile (fun c => !(c = ':')) with
  | _ :: rest =>
    (!scheme.isEmpty) && scheme.head?.all Char.isAlpha && scheme.all isSchemeChar &&
      rest.all isUriTailChar
  | [] => false

/-- Modelled from the spec: a parseable RPC endpoint URL,
`scheme://host...`; the conversion of `VerifyOptions.rpc_url` unwraps this
parse. -/
def isValidUrl (l : Chars) : Bool :=
  let scheme := l.takeWhile (fun c => !(c = ':'))
  match l.dropWhile (fun c => !(c = ':')) with
  | _ :: '/' :: '/' :: rest =>
    (!scheme.isEmpty) && scheme.all isSchemeChar && (!rest.isEmpty) &&
      rest.all isUriTailChar
  | _ => false

def isLeap (y : Nat) : Bool := (y % 4 == 0 && !(y % 100 == 0)) || y % 400 == 0

def daysInMonth (y m : Nat) : Nat :=
  if m = 2 then (if isLeap y then 29 else 28)
  else if m = 4 ∨ m = 6 ∨ m = 9 ∨ m = 11 then 30
  else 31

/-- Days since the Unix epoch of a calendar date (civil-from-days inverse). -/
def daysFromCivil (y m d : Nat) : Int :=
  let yy : Int := if m ≤ 2 then (y : Int) - 1 else (y : Int)
  let era : Int := Int.fdiv yy 400
  let yoe : Int := yy - era * 400
  let mp : Int := ((m : Int) + 9) % 12
  let doy : Int := (153 * mp + 2) / 5 + (d : Int) - 1
  let doe : Int := yoe * 365 + yoe / 4 - yoe / 100 + doy
  era * 146097 + doe - 719468

/-- Nanoseconds encoded by the fractional-second digits. -/
def fracNs (ds : Chars) : Nat :=
  (ds.foldl (fun a c => a * 10 + digitVal c) 0) * 10 ^ (9 - ds.length)

/-- Sign of an offset suffix. -/
def offSign (s : Char) : Int := if s = '-' then -1 else 1

/-- Offset suffix of an RFC-3339 timestamp, in seconds east of UTC. -/
def parseOffset : Chars → Option Int
  | ['Z'] => some 0
  | ['z'] => some 0
  | [s, h1, h2, ':', m1, m2] =>
    if (s = '+' || s = '-') && h1.isDigit && h2.isDigit && m1.isDigit && m2.isDigit &&
        decide (digitVal h1 * 10 + digitVal h2 ≤ 23) &&
        decide (digitVal m1 * 10 + digitVal m2 ≤ 59) then
      some (offSign s *
        (((digitVal h1 * 10 + digitVal h2) * 3600 + (digitVal m1 * 10 + digitVal m2) * 60 : Nat) : Int))
    else none
  | _ => none

/-- Fractional-second digits (at least one, at most nine) then an offset. -/
def parseFrac (rest : Chars) : Option (Nat × Int) :=
  if (rest.takeWhile Char.isDigit).isEmpty || decide (9 < (rest.takeWhile Char.isDigit).length) then
    none
  else
    (parseOffset (rest.dropWhile Char.isDigit)).map fun o =>
      (fracNs (rest.takeWhile Char.isDigit), o)

/-- Optional fractional seconds followed by an offset. -/
def parseFracOffset : Chars → Option (Nat × Int)
  | '.' :: rest => parseFrac rest
  | other => (parseOffset other).map fun o => ((0 : Nat), o)

/-- Range checks and epoch conversion of the date-time fields. -/
def rfcCore (y mo d h mi s : Nat) (rest : Chars) : Option Int :=
  if 1 ≤ mo && mo ≤ 12 && 1 ≤ d && d ≤ daysInMonth y mo && h ≤ 23 && mi ≤ 59 && s ≤ 59 then
    (parseFracOffset rest).map fun p =>
      (daysFromCivil y mo d * 86400 + ((h * 3600 + mi * 60 + s : Nat) : Int)) * 1000000000 +
        (p.1 : Int) - p.2 * 1000000000
  else none

/-- Modelled from the spec: RFC-3339 timestamp text (as parsed by the `time`
crate and by the siwe `TimeStamp`), mapped to nanoseconds since the Unix
epoch.  The textual form is retained alongside, so serialization reproduces
the input text exactly. -/
def parseRfc3339? (l : Chars) : Option Int :=
  match l with
  | y1 :: y2 :: y3 :: y4 :: '-' :: mo1 :: mo2 :: '-' :: d1 :: d2 :: t ::
      h1 :: h2 :: ':' :: mi1 :: mi2 :: ':' :: s1 :: s2 :: rest =>
    if [y1, y2, y3, y4, mo1, mo2, d1, d2, h1, h2, mi1, mi2, s1, s2].all Char.isDigit &&
        (t = 'T' || t = 't') then
      rfcCore (((digitVal y1 * 10 + digitVal y2) * 10 + digitVal y3) * 10 + digitVal y4)
        (digitVal mo1 * 10 + digitVal mo2) (digitVal d1 * 10 + digitVal d2)
        (digitVal h1 * 10 + digitVal h2) (digitVal mi1 * 10 + digitVal mi2)
        (digitVal s1 * 10 + digitVal s2) rest
    else none
  | _ => none

def rfc3339Valid (l : Chars) : Bool := (parseRfc3339? l).isSome

/-- Instant denoted by a (valid) timestamp text, in epoch nanoseconds. -/
def timeValue (l : Chars) : Int := (parseRfc3339? l).getD 0

/-! ### The message model

Modelled from the spec: the structured representation of a Sign-In with
Ethereum message (`siwe::Message`).  The typed invariants of the Rust
struct (validated authority, 20 address bytes, validated URIs, parsed
timestamps that retain their original text) are carried here by the
well-formedness predicate `Msg.WF`. -/

inductive Ver
  | v1
deriving DecidableEq

structure Msg where
  domain : Chars
  address : List Nat
  statement : Option Chars
  uri : Chars
  version : Ver
  chain_id : Nat
  nonce : Chars
  issued_at : Chars
  expiration_time : Option Chars
  not_before : Option Chars
  request_id : Option Chars
  resources : List Chars
deriving DecidableEq

def optTsValid : Option Chars → Bool
  | none => true
  | some t => rfc3339Valid t

/-- Invariants carried by the types of the fields of `siwe::Message`. -/
def Msg.WF (m : Msg) : Prop :=
  isAuthority m.domain = true ∧ m.address.length = 20 ∧ (∀ b ∈ m.address, b < 256) ∧
    isUri m.uri = true ∧ m.chain_id < 2 ^ 64 ∧ rfc3339Valid m.issued_at = true ∧
    optTsValid m.expiration_time = true ∧ optTsValid m.not_before = true ∧
    (∀ r ∈ m.resources, isUri r = true)

/-- Fields whose text is embedded verbatim into a line of canonical text
must not contain the newline delimiter. -/
def Msg.LineSafe (m : Msg) : Prop :=
  lineOk m.nonce = true ∧ m.statement.all lineOk = true ∧ m.request_id.all lineOk = true

instance (m : Msg) : Decidable m.WF := by unfold Msg.WF; infer_instance

instance (m : Msg) : Decidable m.LineSafe := by unfold Msg.LineSafe; infer_instance

def PRE : Chars := " wants you to sign in with your Ethereum account:".data
def uriTag : Chars := "URI: ".data
def versionTag : Chars := "Version: ".data
def chainTag : Chars := "Chain ID: ".data
def nonceTag : Chars := "Nonce: ".data
def iatTag : Chars := "Issued At: ".data
def expTag : Chars := "Expiration Time: ".data
def nbfTag : Chars := "Not Before: ".data
def ridTag : Chars := "Request ID: ".data
def resHeader : Chars := "Resources:".data
def bullet : Chars := "- ".data

def verChars : Ver → Chars
  | .v1 => "1".data

def statementLines : Option Chars → List Chars
  | none => []
  | some s => [s]

def optLine (tag : Chars) : Option Chars → List Chars
  | none => []
  | some v => [tag ++ v]

def resourceLines : List Chars → List Chars
  | [] => []
  | rs => resHeader :: rs.map (fun r => bullet ++ r)

/-- Modelled from the spec: the canonical EIP-4361 text layout as a list of
lines — preamble line, address line, a blank line, an optional statement
line, a blank line, the fixed `Key: value` lines (`URI`, `Version`,
`Chain ID`, `Nonce`, `Issued At`, optionally `Expiration Time`,
`Not Before`, `Request ID`), then an optional `Resources:` line with
bullet-listed resource URIs.  The address line is a parameter so that the
same definition describes a canonical text whose address line carries any
accepted casing. -/
def serLinesWith (m : Msg) (addrLine : Chars) : List Chars :=
  (m.domain ++ PRE) :: addrLine :: ([] : Chars) ::
    (statementLines m.statement ++ ([] : Chars) ::
      (uriTag ++ m.uri) :: (versionTag ++ verChars m.version) ::
      (chainTag ++ natToChars m.chain_id) :: (nonceTag ++ m.nonce) ::
      (iatTag ++ m.issued_at) ::
      (optLine expTag m.expiration_time ++ optLine nbfTag m.not_before ++
        optLine ridTag m.request_id ++ resourceLines m.resources))

/-- Modelled from the spec: serialization (`Message::to_string`), which
renders the address checksummed. -/
def Msg.serialize (m : Msg) : Chars :=
  joinLines (serLinesWith m (toChecksumChars m.address))

/-- Parse error kinds, from the spec error taxonomy: missing/unexpected
line, invalid domain authority, invalid address, invalid URI (message or
resource), invalid version, invalid chain id, invalid timestamp. -/
inductive PErr
  | missingLine
  | unexpectedLine
  | badPre
  | badDomain
  | badAddress
  | badUri
  | badVersion
  | badChainId
  | badTimestamp
  | badResource
deriving DecidableEq, Fintype

/-- Preamble line: strip the fixed suffix, and the rest is the domain. -/
def parsePre (l : Chars) : Except PErr Chars :=
  match stripSfx? l PRE with
  | none => .error .badPre
  | some d => if isAuthority d then .ok d else .error .badDomain

/-- Modelled from the spec: the address line is `0x` followed by exactly 40
hex digits, lowercase or mixed-case. -/
def parseAddr (l : Chars) : Except PErr (List Nat) :=
  match l with
  | '0' :: 'x' :: r =>
    if r.length = 40 then
      match hexPairsToBytes r with
      | some bs => .ok bs
      | none => .error .badAddress
    else .error .badAddress
  | _ => .error .badAddress

/-- Optional statement: a blank line then either a statement line and a
blank line, or directly the blank line before the tagged fields. -/
def parseStatement : List Chars → Except PErr (Option Chars × List Chars)
  | [] => .error .missingLine
  | [] :: [] :: rest => .ok (some [], rest)
  | [] :: rest => .ok (none, rest)
  | s :: [] :: rest => .ok (some s, rest)
  | _ => .error .unexpectedLine

def reqTagged (tag : Chars) : List Chars → Except PErr (Chars × List Chars)
  | [] => .error .missingLine
  | l :: rest =>
    match tagged? tag l with
    | some v => .ok (v, rest)
    | none => .error .unexpectedLine

def parseOptTs (tag : Chars) (ls : List Chars) : Except PErr (Option Chars × List Chars) :=
  match optTagged tag ls with
  | (some v, rest) => if rfc3339Valid v then .ok (some v, rest) else .error .badTimestamp
  | (none, rest) => .ok (none, rest)

def parseBullets : List Chars → Except PErr (List Chars)
  | [] => .ok []
  | l :: rest =>
    match tagged? bullet l with
    | some v =>
      if isUri v then
        match parseBullets rest with
        | .ok vs => .ok (v :: vs)
        | .error e => .error e
      else .error .badResource
    | none => .error .unexpectedLine

def parseResources : List Chars → Except PErr (List Chars)
  | [] => .ok []
  | l :: rest => if l = resHeader then parseBullets rest else .error .unexpectedLine

/-- Optional trailing fields after `Issued At`, in their fixed order. -/
def parseTail (ls : List Chars) :
    Except PErr (Option Chars × Option Chars × Option Chars × List Chars) :=
  match parseOptTs expTag ls with
  | .error e => .error e
  | .ok (exp, ls1) =>
    match parseOptTs nbfTag ls1 with
    | .error e => .error e
    | .ok (nbf, ls2) =>
      match optTagged ridTag ls2 with
      | (rid, ls3) =>
        match parseResources ls3 with
        | .error e => .error e
        | .ok rs => .ok (exp, nbf, rid, rs)

/-- Tagged `Key: value` lines after the statement part. -/
def parseFields (dom : Chars) (addr : List Nat) (stmt : Option Chars) (ls : List Chars) :
    Except PErr Msg :=
  match reqTagged uriTag ls with
  | .error e => .error e
  | .ok (uriV, ls1) =>
    if isUri uriV then
      match reqTagged versionTag ls1 with
      | .error e => .error e
      | .ok (verV, ls2) =>
        match (if verV = "1".data then some Ver.v1 else none) with
        | none => .error .badVersion
        | some ver =>
          match reqTagged chainTag ls2 with
          | .error e => .error e
          | .ok (chV, ls3) =>
            match charsToNat? chV with
            | none => .error .badChainId
            | some n =>
              if n < 2 ^ 64 then
                match reqTagged nonceTag ls3 with
                | .error e => .error e
                | .ok (nonceV, ls4) =>
                  match reqTagged iatTag ls4 with
                  | .error e => .error e
                  | .ok (iatV, ls5) =>
                    if rfc3339Valid iatV then
                      match parseTail ls5 with
                      | .error e => .error e
                      | .ok (exp, nbf, rid, rs) =>
                        .ok { domain := dom, address := addr, statement := stmt, uri := uriV,
                              version := ver, chain_id := n, nonce := nonceV, issued_at := iatV,
                              expiration_time := exp, not_before := nbf, request_id := rid,
                              resources := rs }
                    else .error .badTimestamp
              else .error .badChainId
    else .error .badUri

def parseLines : List Chars → Except PErr Msg
  | l1 :: l2 :: l3 :: rest =>
    (match parsePre l1 with
     | .error e => .error e
     | .ok dom =>
       match parseAddr l2 with
       | .error e => .error e
       | .ok addr =>
         if l3 = ([] : Chars) then
           match parseStatement rest with
           | .error e => .error e
           | .ok (stmt, rest2) => parseFields dom addr stmt rest2
         else .error .unexpectedLine)
  | _ => .error .missingLine

/-- Modelled from the spec: strict parsing of the canonical text
(`Message::from_str`), splitting on newlines. -/
def Msg.fromStr (s : Chars) : Except PErr Msg := parseLines (splitLines s)

/-! ### The wrapper layer (embedded from `src/native/siwe_native/src/lib.rs`) -/

/-- The `Parsed` NIF struct (`Siwe.Message`): all fields are plain host
strings. -/
structure Parsed where
  domain : Chars
  address : Chars
  statement : Option Chars
  uri : Chars
  version : Chars
  chain_id : Nat
  nonce : Chars
  issued_at : Chars
  expiration_time : Option Chars
  not_before : Option Chars
  request_id : Option Chars
  resources : List Chars
deriving DecidableEq

/-- The `VerifyOptions` NIF struct (`Siwe.VerifyOptions`). -/
structure VerifyOptions where
  domain : Option Chars
  nonce : Option Chars
  timestamp : Option Chars
  rpc_url : Option Chars
deriving DecidableEq

/-- Failure kinds of `Parsed::to_eip4361_message` (the Rust code reports
them as formatted strings: bad resource, bad domain, bad address, bad uri,
bad version, failed issued-at conversion). -/
inductive FErr
  | badResource
  | badDomain
  | badAddress
  | badUri
  | badVersion
  | badIssuedAt
deriving DecidableEq

/-- The resource-validation loop at the top of `to_eip4361_message`. -/
def validateResources : List Chars → Except FErr (List Chars)
  | [] => .ok []
  | r :: rest =>
    if isUri r then
      match validateResources rest with
      | .ok vs => .ok (r :: vs)
      | .error e => .error e
    else .error .badResource

/-- `to_timestamp` (lib.rs lines 98-106): a present but unparseable optional
timestamp is silently mapped to `None`. -/
def to_timestamp : Option Chars → Option Chars
  | none => none
  | some s => if rfc3339Valid s then some s else none

/-- `from_timestamp` (lib.rs lines 91-96): render a present timestamp (the
siwe `TimeStamp` prints the text it was parsed from). -/
def from_timestamp : Option Chars → Option Chars
  | none => none
  | some t => some t

/-- `version_string` (lib.rs lines 108-112). -/
def version_string : Ver → Chars
  | .v1 => "1".data

/-- `Parsed::to_eip4361_message` (lib.rs lines 61-88): validate each field
and build the siwe message.  The address conversion drops the first two
characters unconditionally and hex-decodes the remainder to 20 bytes. -/
def Parsed.to_eip4361_message (p : Parsed) : Except FErr Msg :=
  match validateResources p.resources with
  | .error e => .error e
  | .ok rs =>
    if isAuthority p.domain then
      match decode20 (p.address.drop 2) with
      | none => .error .badAddress
      | some bs =>
        if isUri p.uri then
          match (if p.version = "1".data then some Ver.v1 else none) with
          | none => .error .badVersion
          | some ver =>
            if rfc3339Valid p.issued_at then
              .ok { domain := p.domain, address := bs, statement := p.statement,
                    uri := p.uri, version := ver, chain_id := p.chain_id,
                    nonce := p.nonce, issued_at := p.issued_at,
                    expiration_time := to_timestamp p.expiration_time,
                    not_before := to_timestamp p.not_before,
                    request_id := p.request_id, resources := rs }
            else .error .badIssuedAt
        else .error .badUri
    else .error .badDomain

/-- `message_to_parsed` (lib.rs lines 114-129): the address is rendered
checksummed, timestamps print their original text. -/
def message_to_parsed (m : Msg) : Parsed :=
  { domain := m.domain, address := toChecksumChars m.address, statement := m.statement,
    uri := m.uri, version := version_string m.version, chain_id := m.chain_id,
    nonce := m.nonce, issued_at := m.issued_at,
    expiration_time := from_timestamp m.expiration_time,
    not_before := from_timestamp m.not_before, request_id := m.request_id,
    resources := m.resources }

/-- The `parse` NIF (lib.rs lines 131-136). -/
def nifParse (s : Chars) : Except PErr Parsed :=
  match Msg.fromStr s with
  | .ok m => .ok (message_to_parsed m)
  | .error e => .error e

/-- The `to_str` NIF (lib.rs lines 138-144). -/
def nifToStr (p : Parsed) : Except FErr Chars :=
  match p.to_eip4361_message with
  | .ok m => .ok m.serialize
  | .error e => .error e

/-- The section-3 invariants of the data model, stated on a caller-built
`Parsed`: domain a valid authority, address a 0x-prefixed 20-byte hex
value, uri and resources valid URIs, version "1", chain id in u64 range,
issued_at well-formed, optional timestamps well-formed when present. -/
def addressFormatOk (l : Chars) : Bool :=
  match l with
  | '0' :: 'x' :: r => r.length == 40 && r.all isHexDigit
  | _ => false

def ParsedValid (p : Parsed) : Prop :=
  isAuthority p.domain = true ∧ addressFormatOk p.address = true ∧ isUri p.uri = true ∧
    p.version = "1".data ∧ p.chain_id < 2 ^ 64 ∧ rfc3339Valid p.issued_at = true ∧
    optTsValid p.expiration_time = true ∧ optTsValid p.not_before = true ∧
    (∀ r ∈ p.resources, isUri r = true)

def ParsedLineSafe (p : Parsed) : Prop :=
  lineOk p.nonce = true ∧ p.statement.all lineOk = true ∧ p.request_id.all lineOk = true

instance (p : Parsed) : Decidable (ParsedValid p) := by unfold ParsedValid; infer_instance

instance (p : Parsed) : Decidable (ParsedLineSafe p) := by unfold ParsedLineSafe; infer_instance

/-! ### The verification engine and the two asynchronous entry points -/

/-- Verification rejection kinds, from the spec error taxonomy. -/
inductive VErr
  | domainMismatch
  | nonceMismatch
  | notYetValid
  | expired
  | badSignature
deriving DecidableEq, Fintype

/-- The converted `siwe::VerificationOpts`: domain and timestamp already
parsed, the RPC provider retained as its endpoint URL. -/
structure VerificationOpts where
  domain : Option Chars
  nonce : Option Chars
  timestamp : Option Int
  rpc_provider : Option Chars
deriving DecidableEq

/-- The `Into<VerificationOpts> for VerifyOptions` conversion (lib.rs lines
40-58).  A malformed expected domain or timestamp is silently flattened to
`None`; a present but unparseable `rpc_url` panics (`unwrap`), modelled as
`none`.  The conversion happens before any verification work is spawned. -/
def convertOpts (o : VerifyOptions) : Option VerificationOpts :=
  match o.rpc_url with
  | some u =>
    if isValidUrl u then
      some { domain := o.domain.bind fun d => if isAuthority d then some d else none,
             nonce := o.nonce,
             timestamp := o.timestamp.bind fun t => parseRfc3339? t,
             rpc_provider := some u }
    else none
  | none =>
    some { domain := o.domain.bind fun d => if isAuthority d then some d else none,
           nonce := o.nonce,
           timestamp := o.timestamp.bind fun t => parseRfc3339? t,
           rpc_provider := none }

/-- Modelled from the spec: step 1 of the verification pipeline — if an
expected domain is set it must equal the message domain exactly. -/
def domainCheck (o : VerificationOpts) (m : Msg) : Except VErr Unit :=
  match o.domain with
  | none => .ok ()
  | some d => if d = m.domain then .ok () else .error .domainMismatch

/-- Modelled from the spec: step 2 — if an expected nonce is set it must
equal the message nonce exactly. -/
def nonceCheck (o : VerificationOpts) (m : Msg) : Except VErr Unit :=
  match o.nonce with
  | none => .ok ()
  | some n => if n = m.nonce then .ok () else .error .nonceMismatch

/-- Modelled from the spec: step 3 — the message is valid at `now` iff
`issued_at <= now`, `not_before` absent or `<= now`, and `expiration_time`
absent or `now <` it. -/
def validAt (m : Msg) (now : Int) : Bool :=
  decide (timeValue m.issued_at ≤ now) &&
    m.not_before.all (fun nb => decide (timeValue nb ≤ now)) &&
    m.expiration_time.all (fun e => decide (now < timeValue e))

def timeCheck (m : Msg) (now : Int) : Except VErr Unit :=
  if timeValue m.issued_at ≤ now ∧
      m.not_before.all (fun nb => decide (timeValue nb ≤ now)) = true then
    if m.expiration_time.all (fun e => decide (now < timeValue e)) then .ok ()
    else .error .expired
  else .error .notYetValid

/-- Modelled from the spec: step 4 — signature verification over the exact
canonical text, with the contract-based (ERC-1271) fallback consulted only
when an RPC endpoint was supplied.  The two cryptographic predicates are
oracle parameters: recovery of the signer from a 65-byte r‖s‖v signature
and the on-chain is-valid-signature call are outside this model. -/
def sigCheckE (recoverOk contractOk : Chars → List Nat → Bool) (m : Msg) (sig : List Nat)
    (o : VerificationOpts) : Except VErr Unit :=
  if recoverOk m.serialize sig then .ok ()
  else if o.rpc_provider.isSome && contractOk m.serialize sig then .ok ()
  else .error .badSignature

/-- Modelled from the spec: `Message::verify` — the linear pipeline
domain check, nonce check, time validity at (timestamp override or wall
clock), then signature verification, short-circuiting on the first
failure. -/
def engineVerify (recoverOk contractOk : Chars → List Nat → Bool) (m : Msg) (sig : List Nat)
    (o : VerificationOpts) (wallNow : Int) : Except VErr Unit :=
  match domainCheck o m with
  | .error e => .error e
  | .ok _ =>
    match nonceCheck o m with
    | .error e => .error e
    | .ok _ =>
      match timeCheck m (o.timestamp.getD wallNow) with
      | .error e => .error e
      | .ok _ => sigCheckE recoverOk contractOk m sig o

def exceptIsOk : Except VErr Unit → Bool
  | .ok _ => true
  | .error _ => false

/-- The `verify` NIF (lib.rs lines 147-164): convert the options (panic on a
bad RPC URL, modelled as `none`), then deliver a plain boolean — `false`
both when the message cannot be reconstructed, when the signature hex does
not decode, and when the engine rejects. -/
def nifVerify (recoverOk contractOk : Chars → List Nat → Bool) (wallNow : Int)
    (message : Parsed) (sig : Chars) (o : VerifyOptions) : Option Bool :=
  match convertOpts o with
  | none => none
  | some v =>
    some (match message.to_eip4361_message with
          | .ok m =>
            match hexDecode sig with
            | some s => exceptIsOk (engineVerify recoverOk contractOk m s v wallNow)
            | none => false
          | .error _ => false)

/-- The error delivered by `parse_if_valid` (the Rust code delivers it as a
string; the constructors keep the four distinct families apart). -/
inductive NifErr
  | sigDecodeErr (e : HexErr)
  | parseErr (e : PErr)
  | verifyErr (e : VErr)
  | invalidTime
deriving DecidableEq, Fintype

def HexErr.render : HexErr → Chars
  | .oddLength => "odd number of digits".data
  | .invalidChar => "invalid character".data
  | .badLength => "invalid string length".data

def PErr.render : PErr → Chars
  | .missingLine => "missing line".data
  | .unexpectedLine => "unexpected line".data
  | .badPre => "invalid preamble line".data
  | .badDomain => "invalid domain authority".data
  | .badAddress => "invalid address".data
  | .badUri => "invalid uri".data
  | .badVersion => "invalid version".data
  | .badChainId => "invalid chain id".data
  | .badTimestamp => "invalid timestamp".data
  | .badResource => "invalid resource".data

def VErr.render : VErr → Chars
  | .domainMismatch => "domain does not match".data
  | .nonceMismatch => "nonce does not match".data
  | .notYetValid => "message is not yet valid".data
  | .expired => "message has expired".data
  | .badSignature => "signature does not correspond to address".data

/-- Rendering of the delivered error string: the sig-decode prefix and the
literal "Invalid time" come from lib.rs (lines 174 and 183); the parse and
verification messages are modelled from the spec error taxonomy. -/
def NifErr.render : NifErr → Chars
  | .sigDecodeErr e => "Failed to convert sig to bytes: ".data ++ e.render
  | .parseErr e => e.render
  | .verifyErr e => e.render
  | .invalidTime => "Invalid time".data

/-- The body of the `parse_if_valid` NIF (lib.rs lines 171-190): decode the
signature (dropping two characters) to exactly 65 bytes, parse the message
text, run the engine, then re-check validity at delivery time
(`valid_now`, evaluated at the second wall-clock instant). -/
def parseIfValidCore (recoverOk contractOk : Chars → List Nat → Bool)
    (wallNow wallNow2 : Int) (message sig : Chars) (v : VerificationOpts) :
    Except NifErr Parsed :=
  match decode65 (sig.drop 2) with
  | .error e => .error (.sigDecodeErr e)
  | .ok s =>
    match Msg.fromStr message with
    | .error e => .error (.parseErr e)
    | .ok m =>
      match engineVerify recoverOk contractOk m s v wallNow with
      | .ok _ =>
        if validAt m wallNow2 then .ok (message_to_parsed m) else .error .invalidTime
      | .error e => .error (.verifyErr e)

/-- The `parse_if_valid` NIF (lib.rs lines 167-197): options conversion
first (panic on a bad RPC URL, modelled as `none`), then the body, whose
error is delivered as a string. -/
def nifParseIfValid (recoverOk contractOk : Chars → List Nat → Bool)
    (wallNow wallNow2 : Int) (message sig : Chars) (o : VerifyOptions) :
    Option (Except Chars Parsed) :=
  match convertOpts o with
  | none => none
  | some v =>
    some (match parseIfValidCore recoverOk contractOk wallNow wallNow2 message sig v with
          | .ok p => .ok p
          | .error e => .error e.render)

/-- The first line of a line stream does not carry the given tag (used to
reason about the optional trailing fields). -/
def headNotTagged (tag : Chars) : List Chars → Prop
  | [] => True
  | l :: _ => tagged? tag l = none

/-- The message that `to_eip4361_message` builds from a section-3-valid
`Parsed` whose address decodes to `bs`. -/
def msgOf (p : Parsed) (bs : List Nat) : Msg :=
  { domain := p.domain, address := bs, statement := p.statement, uri := p.uri,
    version := Ver.v1, chain_id := p.chain_id, nonce := p.nonce,
    issued_at := p.issued_at, expiration_time := to_timestamp p.expiration_time,
    not_before := to_timestamp p.not_before, request_id := p.request_id,
    resources := p.resources }

/-! ### Concrete values used by the claim theorems -/

def exOpts : VerifyOptions := { domain := none, nonce := none, timestamp := none, rpc_url := none }

def exBadUrlOpts : VerifyOptions :=
  { domain := none, nonce := none, timestamp := none, rpc_url := some "not a url".data }

def exWeakOpts : VerifyOptions :=
  { domain := some "not a domain!".data, nonce := none, timestamp := some "never".data,
    rpc_url := none }

def exOptsV : VerificationOpts :=
  { domain := none, nonce := none, timestamp := none, rpc_provider := none }

/-- A section-3-valid message struct whose address hex digits are all
numeric (so its checksummed rendering equals its lowercase rendering). -/
def exValidParsed : Parsed :=
  { domain := "example.com".data,
    address := "0x1122334455667788990011223344556677889900".data,
    statement := some "Sign in".data,
    uri := "https://example.com/login".data,
    version := "1".data, chain_id := 1, nonce := "abcd1234".data,
    issued_at := "2021-09-30T16:25:24Z".data,
    expiration_time := some "2021-10-01T16:25:24Z".data,
    not_before := none, request_id := some "req-1".data,
    resources := ["https://example.com/a".data] }

/-- The canonical text that `to_str` produces for `exValidParsed`. -/
def exValidText : Chars :=
  ("example.com wants you to sign in with your Ethereum account:\n0x1122334455667788990011223344556677889900\n\nSign in\n\nURI: https://example.com/login\nVersion: 1\nChain ID: 1\nNonce: abcd1234\nIssued At: 2021-09-30T16:25:24Z\nExpiration Time: 2021-10-01T16:25:24Z\nRequest ID: req-1\nResources:\n- https://example.com/a").data

/-- The siwe message that parsing `exValidText` produces. -/
def exValidMsg : Msg :=
  { domain := "example.com".data,
    address := [0x11, 0x22, 0x33, 0x44, 0x55, 0x66, 0x77, 0x88, 0x99, 0x00,
                0x11, 0x22, 0x33, 0x44, 0x55, 0x66, 0x77, 0x88, 0x99, 0x00],
    statement := some "Sign in".data,
    uri := "https://example.com/login".data,
    version := .v1, chain_id := 1, nonce := "abcd1234".data,
    issued_at := "2021-09-30T16:25:24Z".data,
    expiration_time := some "2021-10-01T16:25:24Z".data,
    not_before := none, request_id := some "req-1".data,
    resources := ["https://example.com/a".data] }

/-- A section-3-valid message whose nonce contains a newline. -/
def exNonceNewline : Parsed :=
  { domain := "example.com".data,
    address := "0x1122334455667788990011223344556677889900".data,
    statement := none,
    uri := "https://example.com/login".data,
    version := "1".data, chain_id := 1, nonce := "a\nb".data,
    issued_at := "2021-09-30T16:25:24Z".data,
    expiration_time := none, not_before := none, request_id := none,
    resources := [] }

/-- The text `to_str` produces for `exNonceNewline`: the nonce newline breaks
the line layout. -/
def exNonceNewlineText : Chars :=
  ("example.com wants you to sign in with your Ethereum account:\n0x1122334455667788990011223344556677889900\n\n\nURI: https://example.com/login\nVersion: 1\nChain ID: 1\nNonce: a\nb\nIssued At: 2021-09-30T16:25:24Z").data

/-- Valid except for a malformed (present) expiration time. -/
def exBadExp : Parsed :=
  { domain := "example.com".data,
    address := "0x1122334455667788990011223344556677889900".data,
    statement := none,
    uri := "https://example.com/login".data,
    version := "1".data, chain_id := 1, nonce := "abcd1234".data,
    issued_at := "2021-09-30T16:25:24Z".data,
    expiration_time := some "garbage".data,
    not_before := none, request_id := none,
    resources := [] }

/-- The text `to_str` produces for `exBadExp`: no expiration line at all. -/
def exBadExpText : Chars :=
  ("example.com wants you to sign in with your Ethereum account:\n0x1122334455667788990011223344556677889900\n\n\nURI: https://example.com/login\nVersion: 1\nChain ID: 1\nNonce: abcd1234\nIssued At: 2021-09-30T16:25:24Z").data

/-- A struct whose domain is not a valid authority. -/
def exBadDomain : Parsed :=
  { domain := "not a domain!".data,
    address := "0x1122334455667788990011223344556677889900".data,
    statement := none,
    uri := "https://example.com/login".data,
    version := "1".data, chain_id := 1, nonce := "abcd1234".data,
    issued_at := "2021-09-30T16:25:24Z".data,
    expiration_time := none, not_before := none, request_id := none,
    resources := [] }

/-- An address field with an arbitrary two-character head and 40 hex digits. -/
def exJunkHeadAddr : Parsed :=
  { domain := "example.com".data,
    address := "zz1122334455667788990011223344556677889900".data,
    statement := none,
    uri := "https://example.com/login".data,
    version := "1".data, chain_id := 1, nonce := "abcd1234".data,
    issued_at := "2021-09-30T16:25:24Z".data,
    expiration_time := none, not_before := none, request_id := none,
    resources := [] }

/-- An address field that is exactly 40 hex digits with no prefix at all. -/
def exNoPfxAddr : Parsed :=
  { domain := "example.com".data,
    address := "1122334455667788990011223344556677889900".data,
    statement := none,
    uri := "https://example.com/login".data,
    version := "1".data, chain_id := 1, nonce := "abcd1234".data,
    issued_at := "2021-09-30T16:25:24Z".data,
    expiration_time := none, not_before := none, request_id := none,
    resources := [] }

/-- A 65-byte signature as 0x-prefixed hex text. -/
def exSig65 : Chars := '0' :: 'x' :: List.replicate 130 '1'

/-- A signature whose tail after two characters is not hex. -/
def exSigBad : Chars := "0xzz".data

/-- Epoch nanoseconds of 2021-09-30T16:25:24Z. -/
def exNow : Int := 1633019124000000000

/-- Epoch nanoseconds of 2021-10-01T16:25:24Z (the expiration instant). -/
def exLater : Int := 1633105524000000000

/-! ### Helper lemmas -/

theorem take_len_append {α : Type _} (l₁ l₂ : List α) : (l₁ ++ l₂).take l₁.length = l₁ := by
  induction l₁ with
  | nil => simp
  | cons a t ih => simp [ih]

theorem drop_len_append {α : Type _} (l₁ l₂ : List α) : (l₁ ++ l₂).drop l₁.length = l₂ := by
  induction l₁ with
  | nil => simp
  | cons a t ih => simp [ih]

theorem tagged?_append (tag v : Chars) : tagged? tag (tag ++ v) = some v := by
  simp [tagged?, take_len_append, drop_len_append]

theorem tagged?_mismatch {a b : Char} (h : a ≠ b) (t l : Chars) :
    tagged? (a :: t) (b :: l) = none := by
  have h' : ¬ b = a := fun hba => h hba.symm
  simp [tagged?, List.take_succ_cons, h']

theorem stripSfx_append (d p : Chars) : stripSfx? (d ++ p) p = some d := by
  simp [stripSfx?, List.reverse_append, tagged?_append]

theorem lineOk_iff (l : Chars) : lineOk l = true ↔ '\n' ∉ l := by
  simp only [lineOk, List.all_eq_true, Bool.not_eq_true', decide_eq_false_iff_not]
  constructor
  · intro h hm
    exact h '\n' hm rfl
  · intro h c hc hcn
    exact h (hcn ▸ hc)

theorem splitLines_single (l : Chars) (h : lineOk l = true) : splitLines l = [l] := by
  rw [lineOk_iff] at h
  induction l with
  | nil => rfl
  | cons c r ih =>
    have hc : ¬ c = '\n' := fun hc => h (hc ▸ List.mem_cons_self c r)
    have hr := ih (fun hm => h (List.mem_cons_of_mem c hm))
    simp [splitLines, hc, hr]

theorem splitLines_append (l r : Chars) (h : lineOk l = true) :
    splitLines (l ++ '\n' :: r) = l :: splitLines r := by
  rw [lineOk_iff] at h
  induction l with
  | nil => simp [splitLines]
  | cons c t ih =>
    have hc : ¬ c = '\n' := fun hc => h (hc ▸ List.mem_cons_self c t)
    have ht := ih (fun hm => h (List.mem_cons_of_mem c hm))
    simp only [List.cons_append, splitLines, hc, if_false, List.append_eq, ht]

theorem splitLines_joinLines (l : Chars) (ls : List Chars)
    (h : ∀ x ∈ l :: ls, lineOk x = true) :
    splitLines (joinLines (l :: ls)) = l :: ls := by
  induction ls generalizing l with
  | nil => exact splitLines_single l (h l (List.mem_cons_self _ _))
  | cons b bs ih =>
    have hj : joinLines (l :: b :: bs) = l ++ '\n' :: joinLines (b :: bs) := rfl
    rw [hj, splitLines_append _ _ (h l (List.mem_cons_self _ _)),
      ih b (fun x hx => h x (List.mem_cons_of_mem l hx))]

theorem charsToNatAux_append (acc : Nat) (l₁ l₂ : Chars) :
    charsToNatAux acc (l₁ ++ l₂) =
      match charsToNatAux acc l₁ with
      | some a => charsToNatAux a l₂
      | none => none := by
  induction l₁ generalizing acc with
  | nil => rfl
  | cons c t ih =>
    by_cases hc : c.isDigit <;> simp [charsToNatAux, hc, ih]

theorem digit_char_spec (n : Nat) (h : n < 10) :
    (Char.ofNat (48 + n)).isDigit = true ∧
      digitVal (Char.ofNat (48 + n)) = n ∧
      (Char.ofNat (48 + n)) ≠ '\n' := by
  interval_cases n <;> exact ⟨rfl, rfl, by decide⟩

theorem natToCharsAux_spec (fuel : Nat) : ∀ n, n ≤ fuel →
    ∃ W, 0 < W ∧ ∀ acc, charsToNatAux acc (natToCharsAux fuel n) = some (acc * W + n) := by
  induction fuel with
  | zero =>
    intro n hn
    have hn0 : n = 0 := Nat.le_zero.mp hn
    subst hn0
    refine ⟨10, by omega, fun acc => ?_⟩
    simp [natToCharsAux, charsToNatAux, digitVal]
  | succ fuel ih =>
    intro n hn
    by_cases h10 : n < 10
    · refine ⟨10, by omega, fun acc => ?_⟩
      obtain ⟨hd, hv, _⟩ := digit_char_spec n h10
      simp [natToCharsAux, h10, charsToNatAux, hd, hv]
    · have hrec : n / 10 ≤ fuel := by
        have := Nat.div_lt_self (by omega : 0 < n) (by omega : 1 < 10)
        omega
      obtain ⟨W, hW, hIH⟩ := ih (n / 10) hrec
      refine ⟨W * 10, by positivity, fun acc => ?_⟩
      have hmod : n % 10 < 10 := Nat.mod_lt _ (by omega)
      obtain ⟨hd, hv, _⟩ := digit_char_spec (n % 10) hmod
      simp only [natToCharsAux, h10, if_false, charsToNatAux_append, hIH acc]
      simp only [charsToNatAux, hd, if_true, hv]
      have hdm : n / 10 * 10 + n % 10 = n := by omega
      have h1 : (acc * W + n / 10) * 10 + n % 10 = acc * (W * 10) + (n / 10 * 10 + n % 10) := by
        ring
      rw [h1, hdm]

theorem natToCharsAux_ne_nil (fuel n : Nat) : natToCharsAux fuel n ≠ [] := by
  cases fuel with
  | zero => simp [natToCharsAux]
  | succ fuel =>
    by_cases h10 : n < 10 <;> simp [natToCharsAux, h10]

theorem charsToNat?_natToChars (n : Nat) : charsToNat? (natToChars n) = some n := by
  obtain ⟨W, _, hW⟩ := natToCharsAux_spec n n (Nat.le_refl n)
  have hne := natToCharsAux_ne_nil n n
  rw [natToChars, charsToNat?]
  rw [List.isEmpty_eq_false_iff_exists_mem.mpr ?_]
  · rw [hW 0]
    simp
  · cases hl : natToCharsAux n n with
    | nil => exact absurd hl hne
    | cons a t => exact ⟨a, by simp [hl]⟩

theorem natToCharsAux_digits (fuel : Nat) : ∀ n c, c ∈ natToCharsAux fuel n → c.isDigit = true := by
  induction fuel with
  | zero =>
    intro n c hc
    obtain ⟨hd, _, _⟩ := digit_char_spec (n % 10) (Nat.mod_lt _ (by omega))
    simp [natToCharsAux] at hc
    exact hc ▸ hd
  | succ fuel ih =>
    intro n c hc
    by_cases h10 : n < 10
    · obtain ⟨hd, _, _⟩ := digit_char_spec n h10
      simp [natToCharsAux, h10] at hc
      exact hc ▸ hd
    · simp only [natToCharsAux, h10, if_false, List.mem_append, List.mem_singleton] at hc
      rcases hc with hc | hc
      · exact ih _ _ hc
      · obtain ⟨hd, _, _⟩ := digit_char_spec (n % 10) (Nat.mod_lt _ (by omega))
        exact hc ▸ hd

theorem isDigit_ne_newline {c : Char} (h : c.isDigit = true) : c ≠ '\n' := by
  rintro rfl
  simp [Char.isDigit] at h

theorem lineOk_natToChars (n : Nat) : lineOk (natToChars n) = true := by
  rw [lineOk_iff]
  intro hm
  exact isDigit_ne_newline (natToCharsAux_digits n n _ hm) rfl

theorem hexVal?_lt {c : Char} {n : Nat} (h : hexVal? c = some n) : n < 16 := by
  unfold hexVal? at h
  split_ifs at h with h1 h2 h3 <;> simp only [Option.some.injEq] at h <;> omega

theorem isHexDigit_ne_newline {c : Char} (h : isHexDigit c = true) : c ≠ '\n' := by
  rintro rfl
  exact absurd h (by decide)

theorem hexPairs_chars :
    ∀ (l : Chars) (bs : List Nat), hexPairsToBytesE l = .ok bs → ∀ c ∈ l, isHexDigit c = true
  | [], _, _, c, hc => absurd hc (List.not_mem_nil c)
  | [x], bs, h, c, hc => by simp [hexPairsToBytesE] at h
  | c1 :: c2 :: rest, bs, h, c, hc => by
    unfold hexPairsToBytesE at h
    cases hv1 : hexVal? c1 with
    | none => rw [hv1] at h; exact absurd h (by simp)
    | some n1 =>
      cases hv2 : hexVal? c2 with
      | none => rw [hv1, hv2] at h; exact absurd h (by simp)
      | some n2 =>
        rw [hv1, hv2] at h
        cases hr : hexPairsToBytesE rest with
        | error e => rw [hr] at h; exact absurd h (by simp)
        | ok bs' =>
          simp only [List.mem_cons] at hc
          rcases hc with rfl | rfl | hc
          · simp [isHexDigit, hv1]
          · simp [isHexDigit, hv2]
          · exact hexPairs_chars rest bs' hr c hc

theorem hexPairs_ok :
    ∀ (l : Chars), (∀ c ∈ l, isHexDigit c = true) → l.length % 2 = 0 →
      ∃ bs, hexPairsToBytesE l = .ok bs ∧ 2 * bs.length = l.length ∧ ∀ b ∈ bs, b < 256
  | [], _, _ => ⟨[], rfl, rfl, by simp⟩
  | [x], _, he => by simp at he
  | c1 :: c2 :: rest, h, he => by
    obtain ⟨n1, hv1⟩ := Option.isSome_iff_exists.mp (h c1 (by simp))
    obtain ⟨n2, hv2⟩ := Option.isSome_iff_exists.mp (h c2 (by simp))
    obtain ⟨bs, hbs, hlen, hlt⟩ :=
      hexPairs_ok rest (fun c hc => h c (by simp [hc])) (by simp at he ⊢; omega)
    refine ⟨(16 * n1 + n2) :: bs, ?_, by simp at hlen ⊢; omega, ?_⟩
    · unfold hexPairsToBytesE
      rw [hv1, hv2, hbs]
    · intro b hb
      simp only [List.mem_cons] at hb
      rcases hb with rfl | hb
      · have hn1 := hexVal?_lt hv1
        have hn2 := hexVal?_lt hv2
        omega
      · exact hlt b hb

theorem bytesToLowerHex_length (bs : List Nat) : (bytesToLowerHex bs).length = 2 * bs.length := by
  induction bs with
  | nil => rfl
  | cons b r ih =>
    simp only [bytesToLowerHex, List.length_cons, ih]
    omega

theorem checksumMap_length (hash : List Nat) :
    ∀ (i : Nat) (cs : Chars), (checksumMap hash i cs).length = cs.length := by
  intro i cs
  induction cs generalizing i with
  | nil => rfl
  | cons c r ih => simp [checksumMap, ih]

theorem hexVal?_checksumChar (hash : List Nat) (i : Nat) (n : Nat) (h : n < 16) :
    hexVal? (checksumChar hash i (hexCharL n)) = some n := by
  by_cases hb : 8 ≤ nibbleAt hash i <;>
    interval_cases n <;> simp [checksumChar, hexCharL, isLowerHexLetter, hb] <;> rfl

theorem checksum_decode (hash : List Nat) :
    ∀ (bs : List Nat), (∀ b ∈ bs, b < 256) →
      ∀ i, hexPairsToBytesE (checksumMap hash i (bytesToLowerHex bs)) = .ok bs := by
  intro bs
  induction bs with
  | nil => intro _ i; rfl
  | cons b r ih =>
    intro h i
    have hb : b < 256 := h b (by simp)
    have hhi : b / 16 % 16 < 16 := Nat.mod_lt _ (by omega)
    have hlo : b % 16 < 16 := Nat.mod_lt _ (by omega)
    show hexPairsToBytesE
        (checksumChar hash i (hexCharL (b / 16 % 16)) ::
          checksumChar hash (i + 1) (hexCharL (b % 16)) ::
          checksumMap hash (i + 1 + 1) (bytesToLowerHex r)) = .ok (b :: r)
    unfold hexPairsToBytesE
    rw [hexVal?_checksumChar hash i _ hhi, hexVal?_checksumChar hash (i + 1) _ hlo,
      ih (fun x hx => h x (by simp [hx])) (i + 1 + 1)]
    have hbb : 16 * (b / 16 % 16) + b % 16 = b := by omega
    simp [hbb]

theorem stripHexPfx_hex (l : Chars) (h : ∀ c ∈ l, isHexDigit c = true) :
    stripHexPfx l = l := by
  unfold stripHexPfx
  split
  · exact absurd (h 'x' (by simp)) (by decide)
  · exact absurd (h 'X' (by simp)) (by decide)
  · rfl

theorem parseAddr_checksum (bs : List Nat) (hl : bs.length = 20) (hb : ∀ b ∈ bs, b < 256) :
    parseAddr (toChecksumChars bs) = .ok bs := by
  have hdec := checksum_decode (keccak256 ((bytesToLowerHex bs).map Char.toNat)) bs hb 0
  have hlen : (checksumMap (keccak256 ((bytesToLowerHex bs).map Char.toNat)) 0
      (bytesToLowerHex bs)).length = 40 := by
    rw [checksumMap_length, bytesToLowerHex_length, hl]
  show parseAddr ('0' :: 'x' :: _) = .ok bs
  unfold parseAddr
  simp only [hlen, if_true, hexPairsToBytes, hdec, Except.toOption]

theorem decode20_checksum (bs : List Nat) (hl : bs.length = 20) (hb : ∀ b ∈ bs, b < 256) :
    decode20 ((toChecksumChars bs).drop 2) = some bs := by
  have hdec := checksum_decode (keccak256 ((bytesToLowerHex bs).map Char.toNat)) bs hb 0
  have hchars := hexPairs_chars _ _ hdec
  show decode20 (checksumMap _ 0 (bytesToLowerHex bs)) = some bs
  unfold decode20
  rw [stripHexPfx_hex _ hchars]
  simp only [hexPairsToBytes, hdec, Except.toOption, hl, if_true]

theorem lineOk_toChecksum (bs : List Nat) (hb : ∀ b ∈ bs, b < 256) :
    lineOk (toChecksumChars bs) = true := by
  have hdec := checksum_decode (keccak256 ((bytesToLowerHex bs).map Char.toNat)) bs hb 0
  have hchars := hexPairs_chars _ _ hdec
  rw [lineOk_iff]
  intro hm
  simp only [toChecksumChars, List.mem_cons] at hm
  rcases hm with h | h | hm
  · exact absurd h (by decide)
  · exact absurd h (by decide)
  · exact absurd (hchars _ hm) (by decide)

theorem dropWhile_head_false {α : Type _} (p : α → Bool) :
    ∀ (l : List α) (x : α) (xs : List α), l.dropWhile p = x :: xs → p x = false := by
  intro l
  induction l with
  | nil => intro x xs h; simp [List.dropWhile] at h
  | cons a t ih =>
    intro x xs h
    rw [List.dropWhile_cons] at h
    by_cases hp : p a
    · rw [if_pos hp] at h
      exact ih x xs h
    · rw [if_neg hp] at h
      rw [← (List.cons.injEq ..).mp h |>.1]
      exact Bool.of_not_eq_true hp

theorem lineOk_of_isAuthority (l : Chars) (h : isAuthority l = true) : lineOk l = true := by
  rw [lineOk_iff]
  intro hm
  simp only [isAuthority, Bool.and_eq_true] at h
  rw [← List.takeWhile_append_dropWhile (p := fun c => !(c = ':')) (l := l),
    List.mem_append] at hm
  obtain ⟨⟨hne, hhost⟩, hrest⟩ := h
  rcases hm with hm | hm
  · exact absurd (List.all_eq_true.mp hhost _ hm) (by decide)
  · cases hd : l.dropWhile (fun c => !(c = ':')) with
    | nil => rw [hd] at hm; exact absurd hm (List.not_mem_nil _)
    | cons x port =>
      rw [hd] at hm hrest
      have hx : (fun c => !(c = ':')) x = false := dropWhile_head_false _ l x port hd
      have hx' : x = ':' := by simpa using hx
      rcases List.mem_cons.mp hm with heq | hm
      · rw [hx'] at heq; exact absurd heq (by decide)
      · simp only [Bool.and_eq_true] at hrest
        exact absurd (List.all_eq_true.mp hrest.2 _ hm) (by decide)

theorem lineOk_of_isUri (l : Chars) (h : isUri l = true) : lineOk l = true := by
  rw [lineOk_iff]
  intro hm
  simp only [isUri] at h
  rw [← List.takeWhile_append_dropWhile (p := fun c => !(c = ':')) (l := l),
    List.mem_append] at hm
  cases hd : l.dropWhile (fun c => !(c = ':')) with
  | nil => rw [hd] at h; exact absurd h (by simp)
  | cons x rest =>
    rw [hd] at h
    simp only [Bool.and_eq_true] at h
    obtain ⟨⟨⟨hne, hhead⟩, hscheme⟩, htail⟩ := h
    rcases hm with hm | hm
    · exact absurd (List.all_eq_true.mp hscheme _ hm) (by decide)
    · rw [hd] at hm
      have hx : (fun c => !(c = ':')) x = false := dropWhile_head_false _ l x rest hd
      have hx' : x = ':' := by simpa using hx
      rcases List.mem_cons.mp hm with heq | hm
      · rw [hx'] at heq; exact absurd heq (by decide)
      · exact absurd (List.all_eq_true.mp htail _ hm) (by decide)

theorem parseOffset_chars (r : Chars) (o : Int) (h : parseOffset r = some o) :
    ∀ c ∈ r, c ≠ '\n' := by
  unfold parseOffset at h
  split at h
  · intro c hc
    simp only [List.mem_singleton] at hc
    rw [hc]; decide
  · intro c hc
    simp only [List.mem_singleton] at hc
    rw [hc]; decide
  · next s h1 h2 m1 m2 =>
    split_ifs at h with hg1
    · simp only [Bool.and_eq_true, Bool.or_eq_true, decide_eq_true_eq] at hg1
      obtain ⟨⟨⟨⟨⟨⟨hs, hh1⟩, hh2⟩, hm1⟩, hm2⟩, _⟩, _⟩ := hg1
      intro c hc
      simp only [List.mem_cons, List.not_mem_nil, or_false] at hc
      rcases hc with rfl | rfl | rfl | rfl | rfl | rfl <;>
        first
          | (rcases hs with h' | h' <;> (rw [h']; decide))
          | exact isDigit_ne_newline hh1
          | exact isDigit_ne_newline hh2
          | decide
          | exact isDigit_ne_newline hm1
          | exact isDigit_ne_newline hm2
  · simp at h

theorem parseFrac_chars (rest : Chars) (p : Nat × Int) (h : parseFrac rest = some p) :
    ∀ c ∈ rest, c ≠ '\n' := by
  unfold parseFrac at h
  split_ifs at h with hg
  rw [Option.map_eq_some'] at h
  obtain ⟨o, ho, _⟩ := h
  intro c hc
  rw [← List.takeWhile_append_dropWhile (p := Char.isDigit) (l := rest),
    List.mem_append] at hc
  rcases hc with hc | hc
  · exact isDigit_ne_newline (List.mem_takeWhile_imp hc)
  · exact parseOffset_chars _ o ho c hc

theorem parseFracOffset_chars (r : Chars) (p : Nat × Int) (h : parseFracOffset r = some p) :
    ∀ c ∈ r, c ≠ '\n' := by
  unfold parseFracOffset at h
  split at h
  · next rest =>
    intro c hc
    rcases List.mem_cons.mp hc with rfl | hc
    · decide
    · exact parseFrac_chars rest p h c hc
  · rw [Option.map_eq_some'] at h
    obtain ⟨o, ho, _⟩ := h
    exact parseOffset_chars _ o ho

theorem lineOk_of_rfc (l : Chars) (h : rfc3339Valid l = true) : lineOk l = true := by
  rw [lineOk_iff]
  intro hm
  unfold rfc3339Valid at h
  obtain ⟨v, hv⟩ := Option.isSome_iff_exists.mp h
  unfold parseRfc3339? at hv
  split at hv
  · next y1 y2 y3 y4 mo1 mo2 d1 d2 t h1 h2 mi1 mi2 s1 s2 rest =>
    split_ifs at hv with hg1
    simp only [Bool.and_eq_true, List.all_eq_true, Bool.or_eq_true, decide_eq_true_eq] at hg1
    unfold rfcCore at hv
    split_ifs at hv with hg2
    rw [Option.map_eq_some'] at hv
    obtain ⟨pr, hpr, _⟩ := hv
    have hrest := parseFracOffset_chars rest pr hpr
    simp only [List.mem_cons] at hm
    rcases hm with h | h | h | h | h | h | h | h | h | h | h | h | h | h | h | h | h | h | h | hm
    · have hd := hg1.1 y1 (by simp); rw [← h] at hd; exact absurd hd (by decide)
    · have hd := hg1.1 y2 (by simp); rw [← h] at hd; exact absurd hd (by decide)
    · have hd := hg1.1 y3 (by simp); rw [← h] at hd; exact absurd hd (by decide)
    · have hd := hg1.1 y4 (by simp); rw [← h] at hd; exact absurd hd (by decide)
    · exact absurd h (by decide)
    · have hd := hg1.1 mo1 (by simp); rw [← h] at hd; exact absurd hd (by decide)
    · have hd := hg1.1 mo2 (by simp); rw [← h] at hd; exact absurd hd (by decide)
    · exact absurd h (by decide)
    · have hd := hg1.1 d1 (by simp); rw [← h] at hd; exact absurd hd (by decide)
    · have hd := hg1.1 d2 (by simp); rw [← h] at hd; exact absurd hd (by decide)
    · rcases hg1.2 with hh | hh <;> (rw [← h] at hh; exact absurd hh (by decide))
    · have hd := hg1.1 h1 (by simp); rw [← h] at hd; exact absurd hd (by decide)
    · have hd := hg1.1 h2 (by simp); rw [← h] at hd; exact absurd hd (by decide)
    · exact absurd h (by decide)
    · have hd := hg1.1 mi1 (by simp); rw [← h] at hd; exact absurd hd (by decide)
    · have hd := hg1.1 mi2 (by simp); rw [← h] at hd; exact absurd hd (by decide)
    · exact absurd h (by decide)
    · have hd := hg1.1 s1 (by simp); rw [← h] at hd; exact absurd hd (by decide)
    · have hd := hg1.1 s2 (by simp); rw [← h] at hd; exact absurd hd (by decide)
    · exact (hrest _ hm) rfl
  · exact absurd hv (by simp)

/-! ### Stage lemmas for parsing a serialized message -/

theorem parsePre_append (d : Chars) (h : isAuthority d = true) :
    parsePre (d ++ PRE) = .ok d := by
  unfold parsePre
  rw [stripSfx_append]
  simp [h]

theorem reqTagged_cons (tag v : Chars) (rest : List Chars) :
    reqTagged tag ((tag ++ v) :: rest) = .ok (v, rest) := by
  simp [reqTagged, tagged?_append]

theorem parseStatement_none (l : Chars) (rest : List Chars) (h : l ≠ []) :
    parseStatement (([] : Chars) :: l :: rest) = .ok (none, l :: rest) := by
  cases l with
  | nil => exact absurd rfl h
  | cons c cs => rfl

theorem parseStatement_empty (rest : List Chars) :
    parseStatement (([] : Chars) :: ([] : Chars) :: rest) = .ok (some [], rest) := rfl

theorem parseStatement_some (s : Chars) (rest : List Chars) (h : s ≠ []) :
    parseStatement (s :: ([] : Chars) :: rest) = .ok (some s, rest) := by
  cases s with
  | nil => exact absurd rfl h
  | cons c cs => rfl

theorem optTagged_cons (tag v : Chars) (rest : List Chars) :
    optTagged tag ((tag ++ v) :: rest) = (some v, rest) := by
  simp [optTagged, tagged?_append]

theorem optTagged_skip (tag : Chars) (ls : List Chars) (h : headNotTagged tag ls) :
    optTagged tag ls = (none, ls) := by
  cases ls with
  | nil => rfl
  | cons l rest =>
    have h' : tagged? tag l = none := h
    simp [optTagged, h']

theorem parseOptTs_present (tag v : Chars) (rest : List Chars) (hv : rfc3339Valid v = true) :
    parseOptTs tag ((tag ++ v) :: rest) = .ok (some v, rest) := by
  simp [parseOptTs, optTagged_cons, hv]

theorem parseOptTs_skip (tag : Chars) (ls : List Chars) (h : headNotTagged tag ls) :
    parseOptTs tag ls = .ok (none, ls) := by
  simp [parseOptTs, optTagged_skip tag ls h]

theorem parseOptTs_optLine (tag : Chars) (x : Option Chars) (rest : List Chars)
    (hv : optTsValid x = true) (hskip : x = none → headNotTagged tag rest) :
    parseOptTs tag (optLine tag x ++ rest) = .ok (x, rest) := by
  cases x with
  | none => simpa [optLine] using parseOptTs_skip tag rest (hskip rfl)
  | some v => simpa [optLine] using parseOptTs_present tag v rest hv

theorem optTagged_optLine (tag : Chars) (x : Option Chars) (rest : List Chars)
    (hskip : x = none → headNotTagged tag rest) :
    optTagged tag (optLine tag x ++ rest) = (x, rest) := by
  cases x with
  | none => simpa [optLine] using optTagged_skip tag rest (hskip rfl)
  | some v => simpa [optLine] using optTagged_cons tag v rest

theorem tagged?_expTag_nbf (v : Chars) : tagged? expTag (nbfTag ++ v) = none := by
  rw [show nbfTag = 'N' :: "ot Before: ".data from rfl, List.cons_append,
    show expTag = 'E' :: "xpiration Time: ".data from rfl]
  exact tagged?_mismatch (by decide) _ _

theorem tagged?_expTag_rid (v : Chars) : tagged? expTag (ridTag ++ v) = none := by
  rw [show ridTag = 'R' :: "equest ID: ".data from rfl, List.cons_append,
    show expTag = 'E' :: "xpiration Time: ".data from rfl]
  exact tagged?_mismatch (by decide) _ _

theorem tagged?_nbfTag_rid (v : Chars) : tagged? nbfTag (ridTag ++ v) = none := by
  rw [show ridTag = 'R' :: "equest ID: ".data from rfl, List.cons_append,
    show nbfTag = 'N' :: "ot Before: ".data from rfl]
  exact tagged?_mismatch (by decide) _ _

theorem tagged?_expTag_res : tagged? expTag resHeader = none := by decide

theorem tagged?_nbfTag_res : tagged? nbfTag resHeader = none := by decide

theorem tagged?_ridTag_res : tagged? ridTag resHeader = none := by decide

theorem headNot_exp (nbf rid : Option Chars) (rs : List Chars) :
    headNotTagged expTag
      (optLine nbfTag nbf ++ optLine ridTag rid ++ resourceLines rs) := by
  cases nbf with
  | some v => exact tagged?_expTag_nbf v
  | none =>
    cases rid with
    | some v => exact tagged?_expTag_rid v
    | none =>
      cases rs with
      | nil => trivial
      | cons r t => exact tagged?_expTag_res

theorem headNot_nbf (rid : Option Chars) (rs : List Chars) :
    headNotTagged nbfTag (optLine ridTag rid ++ resourceLines rs) := by
  cases rid with
  | some v => exact tagged?_nbfTag_rid v
  | none =>
    cases rs with
    | nil => trivial
    | cons r t => exact tagged?_nbfTag_res

theorem headNot_rid (rs : List Chars) : headNotTagged ridTag (resourceLines rs) := by
  cases rs with
  | nil => trivial
  | cons r t => exact tagged?_ridTag_res

theorem parseBullets_map (rs : List Chars) (h : ∀ r ∈ rs, isUri r = true) :
    parseBullets (rs.map (fun r => bullet ++ r)) = .ok rs := by
  induction rs with
  | nil => rfl
  | cons r t ih =>
    simp only [List.map_cons, parseBullets, tagged?_append, h r (by simp),
      ih (fun x hx => h x (by simp [hx])), if_true]

theorem parseResources_ser (rs : List Chars) (h : ∀ r ∈ rs, isUri r = true) :
    parseResources (resourceLines rs) = .ok rs := by
  cases rs with
  | nil => rfl
  | cons r t =>
    show parseResources (resHeader :: (r :: t).map (fun x => bullet ++ x)) = _
    simp only [parseResources, if_pos rfl]
    exact parseBullets_map (r :: t) h

theorem parseTail_ser (exp nbf rid : Option Chars) (rs : List Chars)
    (hexp : optTsValid exp = true) (hnbf : optTsValid nbf = true)
    (hres : ∀ r ∈ rs, isUri r = true) :
    parseTail (optLine expTag exp ++ optLine nbfTag nbf ++ optLine ridTag rid ++
      resourceLines rs) = .ok (exp, nbf, rid, rs) := by
  have h1 : parseOptTs expTag (optLine expTag exp ++
      (optLine nbfTag nbf ++ (optLine ridTag rid ++ resourceLines rs))) =
      .ok (exp, optLine nbfTag nbf ++ (optLine ridTag rid ++ resourceLines rs)) :=
    parseOptTs_optLine expTag exp _ hexp
      (fun _ => by rw [← List.append_assoc]; exact headNot_exp nbf rid rs)
  have h2 : parseOptTs nbfTag (optLine nbfTag nbf ++ (optLine ridTag rid ++ resourceLines rs)) =
      .ok (nbf, optLine ridTag rid ++ resourceLines rs) :=
    parseOptTs_optLine nbfTag nbf _ hnbf (fun _ => headNot_nbf rid rs)
  have h3 : optTagged ridTag (optLine ridTag rid ++ resourceLines rs) =
      (rid, resourceLines rs) :=
    optTagged_optLine ridTag rid _ (fun _ => headNot_rid rs)
  have h4 : parseResources (resourceLines rs) = .ok rs := parseResources_ser rs hres
  simp only [parseTail, List.append_assoc, h1, h2, h3, h4]

theorem lineOk_append (a b : Chars) (ha : lineOk a = true) (hb : lineOk b = true) :
    lineOk (a ++ b) = true := by
  rw [lineOk_iff] at ha hb ⊢
  rw [List.mem_append]
  rintro (h | h)
  · exact ha h
  · exact hb h

theorem mem_optLine {x : Chars} {tag : Chars} {o : Option Chars} (h : x ∈ optLine tag o) :
    ∃ v, o = some v ∧ x = tag ++ v := by
  cases o with
  | none => simp [optLine] at h
  | some v =>
    simp only [optLine, List.mem_singleton] at h
    exact ⟨v, rfl, h⟩

theorem mem_resourceLines {x : Chars} {rs : List Chars} (h : x ∈ resourceLines rs) :
    x = resHeader ∨ ∃ r ∈ rs, x = bullet ++ r := by
  cases rs with
  | nil => simp [resourceLines] at h
  | cons r t =>
    simp only [resourceLines, List.mem_cons, List.mem_map] at h
    rcases h with rfl | h
    · exact Or.inl rfl
    · obtain ⟨r', hr', rfl⟩ := h
      exact Or.inr ⟨r', List.mem_cons.mpr hr', rfl⟩

theorem serLines_lineOk (m : Msg) (hWF : m.WF) (hLS : m.LineSafe) (cs : Chars)
    (hcsOk : lineOk cs = true) : ∀ x ∈ serLinesWith m cs, lineOk x = true := by
  obtain ⟨hdom, hlen, hbytes, huri, hchain, hiat, hexp, hnbf, hres⟩ := hWF
  obtain ⟨hnonce, hstmt, hrid⟩ := hLS
  intro x hx
  simp only [serLinesWith, List.mem_cons, List.mem_append] at hx
  rcases hx with rfl | rfl | rfl | hx | rfl | rfl | rfl | rfl | rfl | rfl | (((hx | hx) | hx) | hx)
  · exact lineOk_append _ _ (lineOk_of_isAuthority _ hdom) (by decide)
  · exact hcsOk
  · rfl
  · cases hst : m.statement with
    | none => rw [hst] at hx; simp [statementLines] at hx
    | some s =>
      rw [hst] at hx hstmt
      simp only [statementLines, List.mem_singleton] at hx
      subst hx
      simpa using hstmt
  · rfl
  · exact lineOk_append _ _ (by decide) (lineOk_of_isUri _ huri)
  · cases m.version
    decide
  · exact lineOk_append _ _ (by decide) (lineOk_natToChars _)
  · exact lineOk_append _ _ (by decide) hnonce
  · exact lineOk_append _ _ (by decide) (lineOk_of_rfc _ hiat)
  · obtain ⟨v, ho, rfl⟩ := mem_optLine hx
    rw [ho] at hexp
    exact lineOk_append _ _ (by decide) (lineOk_of_rfc _ hexp)
  · obtain ⟨v, ho, rfl⟩ := mem_optLine hx
    rw [ho] at hnbf
    exact lineOk_append _ _ (by decide) (lineOk_of_rfc _ hnbf)
  · obtain ⟨v, ho, rfl⟩ := mem_optLine hx
    rw [ho] at hrid
    exact lineOk_append _ _ (by decide) (by simpa using hrid)
  · rcases mem_resourceLines hx with rfl | ⟨r, hr, rfl⟩
    · decide
    · exact lineOk_append _ _ (by decide) (lineOk_of_isUri _ (hres r hr))

theorem parseFields_ser (m : Msg) (hWF : m.WF) :
    parseFields m.domain m.address m.statement
      ((uriTag ++ m.uri) :: (versionTag ++ verChars m.version) ::
        (chainTag ++ natToChars m.chain_id) :: (nonceTag ++ m.nonce) ::
        (iatTag ++ m.issued_at) ::
        (optLine expTag m.expiration_time ++ optLine nbfTag m.not_before ++
          optLine ridTag m.request_id ++ resourceLines m.resources)) = .ok m := by
  obtain ⟨dom, addr, stmt, uri, ver, chain, nonce, iat, exp, nbf, rid, rs⟩ := m
  obtain ⟨hdom, hlen, hbytes, huri, hchain, hiat, hexp, hnbf, hres⟩ := hWF
  cases ver
  have h4 := parseTail_ser exp nbf rid rs hexp hnbf hres
  simp only [parseFields, reqTagged_cons, huri, if_true, verChars,
    charsToNat?_natToChars, hchain, hiat, h4]

theorem parseLines_ser (m : Msg) (hWF : m.WF) (cs : Chars)
    (hcs : parseAddr cs = .ok m.address) :
    parseLines (serLinesWith m cs) = .ok m := by
  have hdom := hWF.1
  have hfields := parseFields_ser m hWF
  unfold serLinesWith
  simp only [parseLines, parsePre_append _ hdom, hcs]
  cases hst : m.statement with
  | none =>
    rw [hst] at hfields
    simp only [statementLines, List.nil_append]
    rw [parseStatement_none _ _ (by
      rw [show uriTag = 'U' :: "RI: ".data from rfl, List.cons_append]
      simp)]
    simpa using hfields
  | some s =>
    rw [hst] at hfields
    by_cases hs : s = []
    · subst hs
      simp only [statementLines, List.singleton_append]
      rw [parseStatement_empty]
      simpa using hfields
    · simp only [statementLines, List.singleton_append]
      rw [parseStatement_some _ _ hs]
      simpa using hfields

theorem fromStr_ser (m : Msg) (hWF : m.WF) (hLS : m.LineSafe) (cs : Chars)
    (hcs : parseAddr cs = .ok m.address) (hcsOk : lineOk cs = true) :
    Msg.fromStr (joinLines (serLinesWith m cs)) = .ok m := by
  unfold Msg.fromStr
  have hlines := serLines_lineOk m hWF hLS cs hcsOk
  have hshape : serLinesWith m cs =
      (m.domain ++ PRE) :: (serLinesWith m cs).tail := rfl
  rw [hshape] at hlines ⊢
  rw [splitLines_joinLines _ _ hlines, ← hshape]
  exact parseLines_ser m hWF cs hcs

/-! ### Wrapper-level lemmas -/

theorem validateResources_ok (rs : List Chars) (h : ∀ r ∈ rs, isUri r = true) :
    validateResources rs = .ok rs := by
  induction rs with
  | nil => rfl
  | cons r t ih =>
    simp only [validateResources, h r (by simp), if_true,
      ih (fun x hx => h x (by simp [hx]))]

theorem to_timestamp_of_valid (x : Option Chars) (h : optTsValid x = true) :
    to_timestamp x = x := by
  cases x with
  | none => rfl
  | some t => simp [to_timestamp, optTsValid] at h ⊢; rw [h]

theorem optTsValid_to_timestamp (x : Option Chars) : optTsValid (to_timestamp x) = true := by
  cases x with
  | none => rfl
  | some t =>
    by_cases h : rfc3339Valid t <;> simp [to_timestamp, optTsValid, h]

theorem addressFormatOk_decode (l : Chars) (h : addressFormatOk l = true) :
    ∃ bs, decode20 (l.drop 2) = some bs ∧ bs.length = 20 ∧ (∀ b ∈ bs, b < 256) := by
  unfold addressFormatOk at h
  split at h
  · next r =>
    simp only [Bool.and_eq_true, beq_iff_eq] at h
    obtain ⟨hlen, hhex⟩ := h
    have hhex' : ∀ c ∈ r, isHexDigit c = true := List.all_eq_true.mp hhex
    obtain ⟨bs, hbs, hblen, hlt⟩ := hexPairs_ok r hhex' (by omega)
    refine ⟨bs, ?_, by omega, hlt⟩
    show decode20 r = some bs
    unfold decode20
    rw [stripHexPfx_hex r hhex']
    simp only [hexPairsToBytes, hbs, Except.toOption]
    rw [if_pos (by omega)]
  · exact absurd h (by simp)

theorem msgOf_WF (p : Parsed) (bs : List Nat) (hv : ParsedValid p)
    (hlen : bs.length = 20) (hlt : ∀ b ∈ bs, b < 256) : (msgOf p bs).WF := by
  obtain ⟨hdom, haddr, huri, hver, hchain, hiat, hexp, hnbf, hres⟩ := hv
  exact ⟨hdom, hlen, hlt, huri, hchain, hiat, optTsValid_to_timestamp _,
    optTsValid_to_timestamp _, hres⟩

theorem msgOf_LS (p : Parsed) (bs : List Nat) (hls : ParsedLineSafe p) :
    (msgOf p bs).LineSafe := hls

theorem to_eip4361_ok (p : Parsed) (hv : ParsedValid p) :
    ∃ bs, decode20 (p.address.drop 2) = some bs ∧ bs.length = 20 ∧ (∀ b ∈ bs, b < 256) ∧
      p.to_eip4361_message = .ok (msgOf p bs) := by
  obtain ⟨hdom, haddr, huri, hver, hchain, hiat, hexp, hnbf, hres⟩ := hv
  obtain ⟨bs, hbs, hblen, hlt⟩ := addressFormatOk_decode p.address haddr
  refine ⟨bs, hbs, hblen, hlt, ?_⟩
  unfold Parsed.to_eip4361_message
  rw [validateResources_ok _ hres]
  simp only [hdom, if_true, hbs, huri, hver, if_pos rfl, hiat, msgOf]

theorem to_eip4361_message_to_parsed (m : Msg) (hWF : m.WF) :
    (message_to_parsed m).to_eip4361_message = .ok m := by
  obtain ⟨hdom, hlen, hbytes, huri, hchain, hiat, hexp, hnbf, hres⟩ := hWF
  obtain ⟨dom, addr, stmt, uri, ver, chain, nonce, iat, exp, nbf, rid, rs⟩ := m
  cases ver
  unfold Parsed.to_eip4361_message message_to_parsed
  rw [validateResources_ok _ hres]
  simp only [hdom, if_true, decode20_checksum _ hlen hbytes, huri, version_string,
    if_pos rfl, hiat]
  cases exp with
  | none =>
    cases nbf with
    | none => simp [from_timestamp, to_timestamp]
    | some t =>
      simp only [optTsValid] at hnbf
      simp [from_timestamp, to_timestamp, hnbf]
  | some t =>
    simp only [optTsValid] at hexp
    cases nbf with
    | none => simp [from_timestamp, to_timestamp, hexp]
    | some t' =>
      simp only [optTsValid] at hnbf
      simp [from_timestamp, to_timestamp, hexp, hnbf]

theorem nifParse_fromStr {s : Chars} {m : Msg} (h : Msg.fromStr s = .ok m) :
    nifParse s = .ok (message_to_parsed m) := by
  simp [nifParse, h]

theorem nifToStr_eq {p : Parsed} {m : Msg} (h : p.to_eip4361_message = .ok m) :
    nifToStr p = .ok m.serialize := by
  simp [nifToStr, h]

theorem lineOk_of_parseAddr {cs : Chars} {bs : List Nat} (h : parseAddr cs = .ok bs) :
    lineOk cs = true := by
  unfold parseAddr at h
  split at h
  · next r =>
    split_ifs at h with hlen
    · cases hp : hexPairsToBytes r with
      | none => rw [hp] at h; exact absurd h (by simp)
      | some bs' =>
        have hr : hexPairsToBytesE r = .ok bs' := by
          unfold hexPairsToBytes at hp
          cases he : hexPairsToBytesE r <;> rw [he] at hp <;> simp [Except.toOption] at hp
          rw [hp]
        have hchars := hexPairs_chars r bs' hr
        rw [lineOk_iff]
        intro hm
        rcases List.mem_cons.mp hm with heq | hm
        · exact absurd heq (by decide)
        · rcases List.mem_cons.mp hm with heq | hm
          · exact absurd heq (by decide)
          · exact absurd (hchars _ hm) (by decide)
  · exact absurd h (by simp)

theorem nonceCheck_error {o : VerificationOpts} {m : Msg} {e : VErr}
    (h : nonceCheck o m = .error e) : e = .nonceMismatch := by
  unfold nonceCheck at h
  split at h
  · exact absurd h (by simp)
  · split_ifs at h
    simp only [Except.error.injEq] at h
    exact h.symm

theorem timeCheck_error {m : Msg} {now : Int} {e : VErr}
    (h : timeCheck m now = .error e) : e = .notYetValid ∨ e = .expired := by
  unfold timeCheck at h
  split_ifs at h <;> simp only [Except.error.injEq] at h
  · exact Or.inr h.symm
  · exact Or.inl h.symm

theorem sigCheckE_error {rc cc : Chars → List Nat → Bool} {m : Msg} {sig : List Nat}
    {o : VerificationOpts} {e : VErr} (h : sigCheckE rc cc m sig o = .error e) :
    e = .badSignature := by
  unfold sigCheckE at h
  split_ifs at h
  simp only [Except.error.injEq] at h
  exact h.symm

theorem decode65_length {sig : Chars} {s : List Nat} (h : decode65 sig = .ok s) :
    s.length = 65 := by
  unfold decode65 at h
  split at h
  · split_ifs at h with hl
    · simp only [Except.ok.injEq] at h
      rw [← h]
      exact hl
  · exact absurd h (by simp)

/-! ### Claim theorems -/

/-- C1 (counterexample): the round-trip law fails as stated.  The struct
`exNonceNewline` satisfies every section-3 invariant (nothing in section 3
constrains the nonce), `to_str` serializes it, yet parsing that
serialization fails (the newline inside the nonce splits the nonce line),
so `to_str(parse(s))` cannot return `s`. -/
theorem c1_roundtrip_counterexample :
    ParsedValid exNonceNewline ∧
      nifToStr exNonceNewline = .ok exNonceNewlineText ∧
      nifParse exNonceNewlineText = .error PErr.unexpectedLine := by
  refine ⟨by decide, by decide, by decide⟩

/-- C1 (amended): for every string `s` that is the serialization of a valid
Message whose nonce, statement, and request id contain no newline
character, parsing `s` succeeds and serializing the parse result returns
`s` again. -/
theorem c1_roundtrip_amended (p : Parsed) (hv : ParsedValid p) (hls : ParsedLineSafe p)
    (s : Chars) (hs : nifToStr p = .ok s) :
    ∃ q, nifParse s = .ok q ∧ nifToStr q = .ok s := by
  obtain ⟨bs, hbs, hblen, hlt, heq⟩ := to_eip4361_ok p hv
  rw [nifToStr_eq heq] at hs
  have hsM : (msgOf p bs).serialize = s := Except.ok.inj hs
  have hWF := msgOf_WF p bs hv hblen hlt
  have hLS := msgOf_LS p bs hls
  have haddr : parseAddr (toChecksumChars (msgOf p bs).address) = .ok (msgOf p bs).address :=
    parseAddr_checksum bs hblen hlt
  have hfrom : Msg.fromStr ((msgOf p bs).serialize) = .ok (msgOf p bs) :=
    fromStr_ser _ hWF hLS _ haddr (lineOk_toChecksum bs hlt)
  refine ⟨message_to_parsed (msgOf p bs), ?_, ?_⟩
  · rw [← hsM]
    exact nifParse_fromStr hfrom
  · rw [nifToStr_eq (to_eip4361_message_to_parsed _ hWF), hsM]

theorem c1_roundtrip_amended_witness :
    ∃ q, nifParse exValidText = .ok q ∧ nifToStr q = .ok exValidText :=
  c1_roundtrip_amended exValidParsed (by decide) (by decide) exValidText (by decide)

/-- C2: parsing a canonical message whose address line carries a fixed
20-byte value in any accepted hex casing produces the Parsed whose address
field is the EIP-55 checksummed rendering of that value; the parse result
(and so the output casing) does not depend on the input casing at all. -/
theorem c2_checksum_normalization (m : Msg) (hWF : m.WF) (hls : m.LineSafe) (cs : Chars)
    (hcs : parseAddr cs = .ok m.address) :
    nifParse (joinLines (serLinesWith m cs)) = .ok (message_to_parsed m) ∧
      (message_to_parsed m).address = toChecksumChars m.address := by
  refine ⟨?_, rfl⟩
  exact nifParse_fromStr (fromStr_ser m hWF hls cs hcs (lineOk_of_parseAddr hcs))

theorem c2_checksum_normalization_witness :
    nifParse (joinLines (serLinesWith exValidMsg
        "0x1122334455667788990011223344556677889900".data)) =
      .ok (message_to_parsed exValidMsg) ∧
      (message_to_parsed exValidMsg).address = toChecksumChars exValidMsg.address :=
  c2_checksum_normalization exValidMsg (by decide) (by decide) _ (by decide)

/-- C3 (counterexample): serialization does not reject every
invariant-violating field.  `exBadExp` carries a present but malformed
expiration time, yet `to_str` succeeds (and silently drops the field)
instead of returning an error. -/
theorem c3_serialize_counterexample :
    rfc3339Valid "garbage".data = false ∧
      exBadExp.expiration_time = some "garbage".data ∧
      nifToStr exBadExp = .ok exBadExpText := by
  refine ⟨by decide, by decide, by decide⟩

/-- C3 (amended): `to_str` fails whenever the domain, address, uri, a
resource, the version, or `issued_at` violates its invariant, but a present
malformed `expiration_time` or `not_before` is silently treated as absent:
under the remaining invariants serialization succeeds and the built message
carries `to_timestamp` of the optional fields, which maps an invalid
timestamp to `none`. -/
theorem c3_serialize_amended :
    (∀ p : Parsed, isAuthority p.domain = false →
       ∃ e, p.to_eip4361_message = .error e) ∧
    (∀ p : Parsed, decode20 (p.address.drop 2) = none →
       ∃ e, p.to_eip4361_message = .error e) ∧
    (∀ p : Parsed, isUri p.uri = false →
       ∃ e, p.to_eip4361_message = .error e) ∧
    (∀ (p : Parsed) (r : Chars), r ∈ p.resources → isUri r = false →
       ∃ e, p.to_eip4361_message = .error e) ∧
    (∀ p : Parsed, p.version ≠ "1".data →
       ∃ e, p.to_eip4361_message = .error e) ∧
    (∀ p : Parsed, rfc3339Valid p.issued_at = false →
       ∃ e, p.to_eip4361_message = .error e) ∧
    (∀ p : Parsed, isAuthority p.domain = true → addressFormatOk p.address = true →
       isUri p.uri = true → p.version = "1".data → rfc3339Valid p.issued_at = true →
       (∀ r ∈ p.resources, isUri r = true) →
       ∃ m, p.to_eip4361_message = .ok m ∧
         m.expiration_time = to_timestamp p.expiration_time ∧
         m.not_before = to_timestamp p.not_before) ∧
    (∀ b : Chars, rfc3339Valid b = false → to_timestamp (some b) = none) := by
  refine ⟨?_, ?_, ?_, ?_, ?_, ?_, ?_, ?_⟩
  · intro p h
    unfold Parsed.to_eip4361_message
    cases hres : validateResources p.resources with
    | error e => exact ⟨e, rfl⟩
    | ok rs => simp [h]
  · intro p h
    unfold Parsed.to_eip4361_message
    cases hres : validateResources p.resources with
    | error e => exact ⟨e, rfl⟩
    | ok rs =>
      by_cases hdom : isAuthority p.domain
      · simp [hdom, h]
      · simp [hdom]
  · intro p h
    unfold Parsed.to_eip4361_message
    cases hres : validateResources p.resources with
    | error e => exact ⟨e, rfl⟩
    | ok rs =>
      by_cases hdom : isAuthority p.domain
      · cases haddr : decode20 (p.address.drop 2) with
        | none => simp [hdom, haddr]
        | some bs => simp [hdom, haddr, h]
      · simp [hdom]
  · intro p r hr h
    unfold Parsed.to_eip4361_message
    cases hres : validateResources p.resources with
    | error e => exact ⟨e, rfl⟩
    | ok rs =>
      exfalso
      have : ∀ (l : List Chars) (res : List Chars), validateResources l = .ok res →
          ∀ x ∈ l, isUri x = true := by
        intro l
        induction l with
        | nil => intro res _ x hx; exact absurd hx (List.not_mem_nil x)
        | cons a t ih =>
          intro res hok x hx
          unfold validateResources at hok
          split_ifs at hok with ha
          · rcases List.mem_cons.mp hx with rfl | hx
            · exact ha
            · cases ht : validateResources t with
              | error e => rw [ht] at hok; exact absurd hok (by simp)
              | ok vs => exact ih vs ht x hx
      exact absurd (this p.resources rs hres r hr) (by rw [h]; simp)
  · intro p h
    unfold Parsed.to_eip4361_message
    cases hres : validateResources p.resources with
    | error e => exact ⟨e, rfl⟩
    | ok rs =>
      by_cases hdom : isAuthority p.domain
      · cases haddr : decode20 (p.address.drop 2) with
        | none => simp [hdom, haddr]
        | some bs =>
          by_cases huri : isUri p.uri
          · simp [hdom, haddr, huri, h]
          · simp [hdom, haddr, huri]
      · simp [hdom]
  · intro p h
    unfold Parsed.to_eip4361_message
    cases hres : validateResources p.resources with
    | error e => exact ⟨e, rfl⟩
    | ok rs =>
      by_cases hdom : isAuthority p.domain
      · cases haddr : decode20 (p.address.drop 2) with
        | none => simp [hdom, haddr]
        | some bs =>
          by_cases huri : isUri p.uri
          · by_cases hver : p.version = "1".data
            · simp [hdom, haddr, huri, hver, h]
            · simp [hdom, haddr, huri, hver]
          · simp [hdom, haddr, huri]
      · simp [hdom]
  · intro p hdom haddr huri hver hiat hres
    obtain ⟨bs, hbs, _, _⟩ := addressFormatOk_decode p.address haddr
    refine ⟨msgOf p bs, ?_, rfl, rfl⟩
    unfold Parsed.to_eip4361_message
    rw [validateResources_ok _ hres]
    simp only [hdom, if_true, hbs, huri, hver, if_pos rfl, hiat, msgOf]
  · intro b h
    simp [to_timestamp, h]

theorem c3_serialize_amended_witness :
    (∃ e, exBadDomain.to_eip4361_message = Except.error e) ∧
    (∃ m, exBadExp.to_eip4361_message = Except.ok m ∧
      m.expiration_time = to_timestamp exBadExp.expiration_time ∧
      m.not_before = to_timestamp exBadExp.not_before) := by
  obtain ⟨h1, _, _, _, _, _, h7, _⟩ := c3_serialize_amended
  exact ⟨h1 exBadDomain (by decide),
    h7 exBadExp (by decide) (by decide) (by decide) (by decide) (by decide) (by decide)⟩

/-- C4 (counterexample): when the canonical text cannot be reconstructed,
`verify` delivers exactly the same outcome as an invalid signature — the
boolean `false` — not a distinct error.  Here `exBadDomain` fails
reconstruction while `exValidParsed` reaches the engine and fails only the
signature check, and the two delivered results are equal. -/
theorem c4_verify_counterexample :
    nifVerify (fun _ _ => false) (fun _ _ => false) exNow exBadDomain "00".data exOpts =
        some false ∧
      nifVerify (fun _ _ => false) (fun _ _ => false) exNow exValidParsed "00".data exOpts =
        some false := by
  refine ⟨by decide, by decide⟩

/-- C4 (amended): whenever `to_eip4361_message` fails on the given message
struct, the `verify` NIF delivers `some false` — the same boolean channel
and value as a failed signature verification; no distinct error reaches the
caller. -/
theorem c4_verify_amended (rc cc : Chars → List Nat → Bool) (w : Int) (p : Parsed)
    (sig : Chars) (o : VerifyOptions) (v : VerificationOpts)
    (hconv : convertOpts o = some v) (e : FErr) (hp : p.to_eip4361_message = .error e) :
    nifVerify rc cc w p sig o = some false := by
  simp [nifVerify, hconv, hp]

theorem c4_verify_amended_witness :
    nifVerify (fun _ _ => false) (fun _ _ => false) exNow exBadDomain "00".data exOpts =
      some false :=
  c4_verify_amended _ _ exNow exBadDomain "00".data exOpts exOptsV (by decide)
    FErr.badDomain (by decide)

/-- C5: when the signature decodes, the text parses, and the engine accepts,
but the message is no longer valid at the second "valid now" check, the
delivered result is the error string "Invalid time", which differs from
every parse-failure string, every verification-failure string, and every
signature-decode-failure string. -/
theorem c5_freshness_gate (rc cc : Chars → List Nat → Bool) (w w2 : Int)
    (msgText sig : Chars) (o : VerifyOptions) (v : VerificationOpts)
    (hconv : convertOpts o = some v) (s : List Nat)
    (hsig : decode65 (sig.drop 2) = .ok s) (m : Msg)
    (hparse : Msg.fromStr msgText = .ok m)
    (hverify : engineVerify rc cc m s v w = .ok ())
    (hstale : validAt m w2 = false) :
    nifParseIfValid rc cc w w2 msgText sig o = some (.error "Invalid time".data) ∧
      (∀ e : PErr, "Invalid time".data ≠ e.render) ∧
      (∀ e : VErr, "Invalid time".data ≠ e.render) ∧
      (∀ e : HexErr, "Invalid time".data ≠ NifErr.render (.sigDecodeErr e)) := by
  refine ⟨?_, by decide, by decide, by decide⟩
  simp [nifParseIfValid, hconv, parseIfValidCore, hsig, hparse, hverify, hstale, NifErr.render]

theorem c5_freshness_gate_witness :
    nifParseIfValid (fun _ _ => true) (fun _ _ => false) exNow exLater exValidText exSig65
        exOpts = some (.error "Invalid time".data) ∧
      (∀ e : PErr, "Invalid time".data ≠ e.render) ∧
      (∀ e : VErr, "Invalid time".data ≠ e.render) ∧
      (∀ e : HexErr, "Invalid time".data ≠ NifErr.render (.sigDecodeErr e)) :=
  c5_freshness_gate (fun _ _ => true) (fun _ _ => false) exNow exLater exValidText exSig65
    exOpts exOptsV (by decide) (List.replicate 65 0x11) (by decide) exValidMsg (by decide)
    (by decide) (by decide)

/-- C6: `parse_if_valid` takes the signature as 0x-prefixed hex text and, if
it does not decode to exactly 65 raw bytes, delivers the decode error
without consulting the verification engine (the outcome is independent of
both cryptographic oracles and of the clock); the split `verify` entry
point decodes hex of any length and hands the raw bytes to the engine. -/
theorem c6_signature_encoding :
    (∀ (rc cc rc' cc' : Chars → List Nat → Bool) (w w2 w' w2' : Int)
       (msgText sig : Chars) (o : VerifyOptions) (v : VerificationOpts),
       convertOpts o = some v → ∀ e, decode65 (sig.drop 2) = .error e →
       nifParseIfValid rc cc w w2 msgText sig o =
           some (.error (NifErr.render (.sigDecodeErr e))) ∧
         nifParseIfValid rc cc w w2 msgText sig o =
           nifParseIfValid rc' cc' w' w2' msgText sig o) ∧
    (∀ (sig : Chars) (s : List Nat), decode65 sig = .ok s → s.length = 65) ∧
    (∀ (rc cc : Chars → List Nat → Bool) (w : Int) (p : Parsed) (m : Msg) (sig : Chars)
       (bs : List Nat) (o : VerifyOptions) (v : VerificationOpts),
       convertOpts o = some v → p.to_eip4361_message = .ok m → hexDecode sig = some bs →
       nifVerify rc cc w p sig o = some (exceptIsOk (engineVerify rc cc m bs v w))) := by
  refine ⟨?_, ?_, ?_⟩
  · intro rc cc rc' cc' w w2 w' w2' msgText sig o v hconv e he
    constructor
    · simp [nifParseIfValid, hconv, parseIfValidCore, he]
    · simp [nifParseIfValid, hconv, parseIfValidCore, he]
  · intro sig s h
    exact decode65_length h
  · intro rc cc w p m sig bs o v hconv hm hbs
    simp [nifVerify, hconv, hm, hbs]

theorem c6_signature_encoding_witness :
    (nifParseIfValid (fun _ _ => true) (fun _ _ => false) exNow exNow exValidText exSigBad
        exOpts = some (.error (NifErr.render (.sigDecodeErr HexErr.invalidChar)))) ∧
      (List.replicate 65 0x11).length = 65 ∧
      nifVerify (fun _ _ => false) (fun _ _ => false) exNow exValidParsed "00".data exOpts =
        some (exceptIsOk (engineVerify (fun _ _ => false) (fun _ _ => false) exValidMsg [0]
          exOptsV exNow)) := by
  refine ⟨?_, ?_, ?_⟩
  · exact (c6_signature_encoding.1 (fun _ _ => true) (fun _ _ => false) (fun _ _ => true)
      (fun _ _ => false) exNow exNow exNow exNow exValidText exSigBad exOpts exOptsV
      (by decide) HexErr.invalidChar (by decide)).1
  · exact c6_signature_encoding.2.1 (exSig65.drop 2) (List.replicate 65 0x11) (by decide)
  · exact c6_signature_encoding.2.2 (fun _ _ => false) (fun _ _ => false) exNow exValidParsed
      exValidMsg "00".data [0] exOpts exOptsV (by decide) (by decide) (by decide)

/-- C7: the delivered error of `parse_if_valid` carries the specific cause:
the rendering of the four error families is injective (no two distinct
errors collapse to the same delivered value), and each failing stage
delivers exactly its own error — the signature-decode error, the parse
error, the verification error, or the freshness error. -/
theorem c7_specific_reasons :
    (∀ e1 e2 : NifErr, e1.render = e2.render → e1 = e2) ∧
    (∀ (rc cc : Chars → List Nat → Bool) (w w2 : Int) (msgText sig : Chars)
       (o : VerifyOptions) (v : VerificationOpts), convertOpts o = some v →
       (∀ e, decode65 (sig.drop 2) = .error e →
          nifParseIfValid rc cc w w2 msgText sig o =
            some (.error (NifErr.render (.sigDecodeErr e)))) ∧
       (∀ s e, decode65 (sig.drop 2) = .ok s → Msg.fromStr msgText = .error e →
          nifParseIfValid rc cc w w2 msgText sig o =
            some (.error (NifErr.render (.parseErr e)))) ∧
       (∀ s m e, decode65 (sig.drop 2) = .ok s → Msg.fromStr msgText = .ok m →
          engineVerify rc cc m s v w = .error e →
          nifParseIfValid rc cc w w2 msgText sig o =
            some (.error (NifErr.render (.verifyErr e)))) ∧
       (∀ s m, decode65 (sig.drop 2) = .ok s → Msg.fromStr msgText = .ok m →
          engineVerify rc cc m s v w = .ok () → validAt m w2 = false →
          nifParseIfValid rc cc w w2 msgText sig o =
            some (.error (NifErr.render .invalidTime)))) := by
  refine ⟨by decide, ?_⟩
  intro rc cc w w2 msgText sig o v hconv
  refine ⟨?_, ?_, ?_, ?_⟩
  · intro e he
    simp [nifParseIfValid, hconv, parseIfValidCore, he]
  · intro s e hs he
    simp [nifParseIfValid, hconv, parseIfValidCore, hs, he]
  · intro s m e hs hm he
    simp [nifParseIfValid, hconv, parseIfValidCore, hs, hm, he]
  · intro s m hs hm he hv
    simp [nifParseIfValid, hconv, parseIfValidCore, hs, hm, he, hv]

theorem c7_specific_reasons_witness :
    NifErr.invalidTime = NifErr.invalidTime ∧
      nifParseIfValid (fun _ _ => true) (fun _ _ => false) exNow exNow exValidText exSigBad
        exOpts = some (.error (NifErr.render (.sigDecodeErr HexErr.invalidChar))) := by
  refine ⟨c7_specific_reasons.1 NifErr.invalidTime NifErr.invalidTime rfl, ?_⟩
  exact (c7_specific_reasons.2 (fun _ _ => true) (fun _ _ => false) exNow exNow exValidText
    exSigBad exOpts exOptsV (by decide)).1 HexErr.invalidChar (by decide)

/-- C8 (implicit): converting a `VerifyOptions` with a malformed expected
domain or a malformed timestamp override silently succeeds with the
corresponding option absent — so the engine skips the domain check (it can
never reject with a domain mismatch) and resolves "now" to the wall clock —
and no error is reported to the caller. -/
theorem c8_silent_option_weakening (o : VerifyOptions) (hrpc : o.rpc_url = none) :
    ∃ v, convertOpts o = some v ∧
      (∀ d, o.domain = some d → isAuthority d = false → v.domain = none) ∧
      (∀ t, o.timestamp = some t → rfc3339Valid t = false → v.timestamp = none) ∧
      (v.domain = none → ∀ (rc cc : Chars → List Nat → Bool) (m : Msg) (sig : List Nat)
        (w : Int), engineVerify rc cc m sig v w ≠ .error .domainMismatch) ∧
      (v.timestamp = none → ∀ w : Int, v.timestamp.getD w = w) := by
  refine ⟨_, by unfold convertOpts; rw [hrpc], ?_, ?_, ?_, ?_⟩
  · intro d hd hbad
    simp [hd, hbad]
  · intro t ht hbad
    simp only [ht, Option.bind_some]
    unfold rfc3339Valid at hbad
    exact Option.not_isSome_iff_eq_none.mp (by simp [hbad])
  · intro hdom rc cc m sig w hcontra
    unfold engineVerify at hcontra
    rw [show domainCheck _ m = .ok () from by unfold domainCheck; rw [hdom]] at hcontra
    cases hn : nonceCheck _ m with
    | error e =>
      rw [hn] at hcontra
      simp only [Except.error.injEq] at hcontra
      rw [hcontra] at hn
      exact absurd (nonceCheck_error hn) (by decide)
    | ok u =>
      rw [hn] at hcontra
      cases ht : timeCheck m _ with
      | error e =>
        rw [ht] at hcontra
        simp only [Except.error.injEq] at hcontra
        rw [hcontra] at ht
        rcases timeCheck_error ht with h | h <;> exact absurd h (by decide)
      | ok u' =>
        rw [ht] at hcontra
        cases hs : sigCheckE rc cc m sig _ with
        | error e =>
          rw [hs] at hcontra
          simp only [Except.error.injEq] at hcontra
          rw [hcontra] at hs
          exact absurd (sigCheckE_error hs) (by decide)
        | ok u'' => rw [hs] at hcontra; exact absurd hcontra (by simp)
  · intro ht w
    rw [ht]
    rfl

theorem c8_silent_option_weakening_witness :
    ∃ v, convertOpts exWeakOpts = some v ∧ v.domain = none ∧ v.timestamp = none := by
  obtain ⟨v, hv, h1, h2, _, _⟩ := c8_silent_option_weakening exWeakOpts rfl
  exact ⟨v, hv, h1 _ rfl (by decide), h2 _ rfl (by decide)⟩

/-- C9 (implicit): `to_eip4361_message` never validates the address prefix:
it drops the first two characters unconditionally, so any address whose
tail after two arbitrary characters is 40 hex digits is accepted (the
decoded bytes come from those 40 digits), while a correct unprefixed
40-hex-digit address is rejected (dropping two characters leaves 38
digits, which is not 20 bytes). -/
theorem c9_address_prefix_unchecked :
    (∀ (p : Parsed) (c1 c2 : Char) (r : Chars), p.address = c1 :: c2 :: r →
       r.length = 40 → (∀ c ∈ r, isHexDigit c = true) →
       isAuthority p.domain = true → isUri p.uri = true → p.version = "1".data →
       rfc3339Valid p.issued_at = true → (∀ x ∈ p.resources, isUri x = true) →
       ∃ m bs, p.to_eip4361_message = .ok m ∧ m.address = bs ∧
         hexPairsToBytesE r = .ok bs) ∧
    (∀ p : Parsed, (∀ c ∈ p.address, isHexDigit c = true) → p.address.length = 40 →
       ∃ e, p.to_eip4361_message = .error e) := by
  constructor
  · intro p c1 c2 r haddr hlen hhex hdom huri hver hiat hres
    obtain ⟨bs, hbs, hblen, hlt⟩ := hexPairs_ok r hhex (by omega)
    have hdec : decode20 (p.address.drop 2) = some bs := by
      rw [haddr]
      show decode20 r = some bs
      unfold decode20
      rw [stripHexPfx_hex r hhex]
      simp only [hexPairsToBytes, hbs, Except.toOption]
      rw [if_pos (by omega)]
    refine ⟨msgOf p bs, bs, ?_, rfl, hbs⟩
    unfold Parsed.to_eip4361_message
    rw [validateResources_ok _ hres]
    simp only [hdom, if_true, hdec, huri, hver, if_pos rfl, hiat, msgOf]
  · intro p hhex hlen
    unfold Parsed.to_eip4361_message
    cases hres : validateResources p.resources with
    | error e => exact ⟨e, rfl⟩
    | ok rs =>
      by_cases hdom : isAuthority p.domain
      · have hdec : decode20 (p.address.drop 2) = none := by
          unfold decode20
          have hhex' : ∀ c ∈ p.address.drop 2, isHexDigit c = true :=
            fun c hc => hhex c (List.mem_of_mem_drop hc)
          rw [stripHexPfx_hex _ hhex']
          cases hp : hexPairsToBytes (p.address.drop 2) with
          | none => rfl
          | some bs =>
            have hb : hexPairsToBytesE (p.address.drop 2) = .ok bs := by
              unfold hexPairsToBytes at hp
              cases he : hexPairsToBytesE (p.address.drop 2) <;> rw [he] at hp <;>
                simp [Except.toOption] at hp
              rw [hp]
            have hlen38 : (p.address.drop 2).length = 38 := by
              rw [List.length_drop, hlen]
            obtain ⟨bs', hbs', hlen', _⟩ := hexPairs_ok (p.address.drop 2) hhex'
              (by rw [hlen38])
            rw [hb] at hbs'
            have hbsbs : bs = bs' := Except.ok.inj hbs'
            rw [hlen38] at hlen'
            have h19 : ¬ bs.length = 20 := by rw [hbsbs]; omega
            simp [h19]
        simp [hdom, hdec]
      · simp [hdom]

theorem c9_address_prefix_unchecked_witness :
    (∃ m bs, exJunkHeadAddr.to_eip4361_message = Except.ok m ∧ m.address = bs ∧
      hexPairsToBytesE "1122334455667788990011223344556677889900".data = Except.ok bs) ∧
    (∃ e, exNoPfxAddr.to_eip4361_message = Except.error e) := by
  constructor
  · exact c9_address_prefix_unchecked.1 exJunkHeadAddr 'z' 'z'
      "1122334455667788990011223344556677889900".data (by decide) (by decide) (by decide)
      (by decide) (by decide) (by decide) (by decide) (by decide)
  · exact c9_address_prefix_unchecked.2 exNoPfxAddr (by decide) (by decide)

/-- C10 (implicit): a present but unparseable `rpc_url` aborts the options
conversion (the Rust `unwrap` panics) instead of returning an error, so
both public entry points deliver nothing at all — the panic happens before
any verification work is submitted. -/
theorem c10_rpc_url_panic (o : VerifyOptions) (u : Chars) (hu : o.rpc_url = some u)
    (hbad : isValidUrl u = false) :
    convertOpts o = none ∧
      (∀ (rc cc : Chars → List Nat → Bool) (w : Int) (p : Parsed) (sig : Chars),
        nifVerify rc cc w p sig o = none) ∧
      (∀ (rc cc : Chars → List Nat → Bool) (w w2 : Int) (t sig : Chars),
        nifParseIfValid rc cc w w2 t sig o = none) := by
  have hc : convertOpts o = none := by
    unfold convertOpts
    rw [hu]
    simp [hbad]
  exact ⟨hc, fun rc cc w p sig => by simp [nifVerify, hc],
    fun rc cc w w2 t sig => by simp [nifParseIfValid, hc]⟩

theorem c10_rpc_url_panic_witness :
    convertOpts exBadUrlOpts = none ∧
      nifVerify (fun _ _ => true) (fun _ _ => true) exNow exValidParsed "00".data
        exBadUrlOpts = none := by
  have h := c10_rpc_url_panic exBadUrlOpts "not a url".data rfl (by decide)
  exact ⟨h.1, h.2.1 (fun _ _ => true) (fun _ _ => true) exNow exValidParsed "00".data⟩
